import Mathlib

/-!
Verification of the scroll-to-geometry narrative engine of the portfolio
repository (`src/components/LoadingScreen.tsx` / `MapJourney`,
`src/components/ProgressBar.tsx`).  The TypeScript functions are embedded
as executable Lean definitions over `ℚ` (exact arithmetic standing in for
JS numbers), and the behavioural claims of the specification are settled
as theorems about those definitions.
-/

namespace Portfolio

/-- Constants from `MapJourney` (`LoadingScreen.tsx`, third document):
`POI_WINDOW_KM = 10`, `BASE_PX_PER_KM = 100`, `SLOW_FACTOR = 2`,
`STEP_KM = 0.2`. -/
def POI_WINDOW_KM : ℚ := 10

def BASE_PX_PER_KM : ℚ := 100

def SLOW_FACTOR : ℚ := 2

def STEP_KM : ℚ := 1/5

/-- The fields of `SnappedPoint` (`src/types.ts`) that the narrative engine
reads: the narrative id, the section / subsection names and the distance
along the path.  Text, image and coordinates are payload the engine never
branches on. -/
structure SnappedPoint where
  narrativeId : ℕ
  sectionName : String
  subsectionName : String
  distanceAlongPath : ℚ
deriving DecidableEq, Repr, Inhabited

/-- Interface `ScrollMapping` of `LoadingScreen.tsx`: parallel sample
arrays `kmSamples` / `pxCumulative` plus the total pixel range. -/
structure ScrollMapping where
  kmSamples : List ℚ
  pxCumulative : List ℚ
  totalPx : ℚ
deriving DecidableEq, Repr, Inhabited

/-- Distance of the first snapped point (`snappedPoints[0].distanceAlongPath`). -/
def startKmOf : List SnappedPoint → ℚ
  | [] => 0
  | p :: _ => p.distanceAlongPath

/-- Distance of the last snapped point
(`snappedPoints[snappedPoints.length - 1].distanceAlongPath`). -/
def endKmOf : List SnappedPoint → ℚ
  | [] => 0
  | p :: rest => (rest.getLastD p).distanceAlongPath

/-- Loop test of `buildScrollMapping`: the step midpoint lies within
`POI_WINDOW_KM` of some snapped point (the inner `for … break` loop). -/
def inSlowZone (pts : List SnappedPoint) (midKm : ℚ) : Bool :=
  pts.any fun sp => decide (|midKm - sp.distanceAlongPath| ≤ POI_WINDOW_KM)

/-- The `i`-th entry pushed onto `kmSamples`:
`startKm + Math.min(i * STEP_KM, endKm - startKm)`. -/
def sampleKm (startKm endKm : ℚ) (i : ℕ) : ℚ :=
  startKm + min ((i : ℚ) * STEP_KM) (endKm - startKm)

/-- Pixel cost accumulated for step `i` of `buildScrollMapping`:
`segKm * BASE_PX_PER_KM * (inSlowZone ? SLOW_FACTOR : 1)`. -/
def stepCost (pts : List SnappedPoint) (startKm endKm : ℚ) (i : ℕ) : ℚ :=
  let km := sampleKm startKm endKm i
  let nextKm := sampleKm startKm endKm (i + 1)
  let midKm := (km + nextKm) / 2
  (nextKm - km) * BASE_PX_PER_KM * (if inSlowZone pts midKm then SLOW_FACTOR else 1)

/-- Running value of `cumPx` when the loop of `buildScrollMapping` reaches
index `i` (costs of all steps `j < i` accumulated). -/
def cumPx (pts : List SnappedPoint) (startKm endKm : ℚ) : ℕ → ℚ
  | 0 => 0
  | i + 1 => cumPx pts startKm endKm i + stepCost pts startKm endKm i

/-- Loop bound of `buildScrollMapping`:
`Math.max(Math.ceil((endKm - startKm) / STEP_KM), 1)`. -/
def numStepsOf (startKm endKm : ℚ) : ℕ :=
  max (⌈(endKm - startKm) / STEP_KM⌉.toNat) 1

/-- `buildScrollMapping` (`LoadingScreen.tsx` lines 411–446): empty input
gives the empty mapping; otherwise the span `[startKm, endKm]` is
discretised into `numSteps` steps of `STEP_KM`, each step's pixel cost is
`segKm·BASE_PX_PER_KM` doubled inside a dwell zone, and the total adds a
half-base-unit tail. -/
def buildScrollMapping (pts : List SnappedPoint) : ScrollMapping :=
  match pts with
  | [] => ⟨[], [], 0⟩
  | p :: rest =>
    let startKm := startKmOf (p :: rest)
    let endKm := endKmOf (p :: rest)
    let numSteps := numStepsOf startKm endKm
    ⟨(List.range (numSteps + 1)).map (fun i => sampleKm startKm endKm i),
     (List.range (numSteps + 1)).map (fun i => cumPx (p :: rest) startKm endKm i),
     cumPx (p :: rest) startKm endKm numSteps + BASE_PX_PER_KM * (1/2)⟩

/-- Binary-search loop shared by `scrollPxToKm` and `kmToPx`
(`while (lo < hi - 1) { mid = (lo + hi) >> 1; if (c[mid] <= px) lo = mid
else hi = mid }`).  The loop strictly shrinks `hi - lo`, so a fuel
argument of at least `hi - lo` (the callers pass the array length) makes
the Lean function agree with the JS loop. -/
def srchAux (c : List ℚ) (px : ℚ) : ℕ → ℕ → ℕ → ℕ × ℕ
  | 0, lo, hi => (lo, hi)
  | fuel + 1, lo, hi =>
    if lo + 1 < hi then
      if c.getD ((lo + hi) / 2) 0 ≤ px then srchAux c px fuel ((lo + hi) / 2) hi
      else srchAux c px fuel lo ((lo + hi) / 2)
    else (lo, hi)

/-- `scrollPxToKm` (`LoadingScreen.tsx` lines 448–464): clamp below 0 and
above the last cumulative sample, otherwise binary-search `pxCumulative`
for the bracketing pair and linearly interpolate the matching
`kmSamples` pair. -/
def scrollPxToKm (px : ℚ) (m : ScrollMapping) : ℚ :=
  if m.kmSamples.length = 0 then 0
  else if px ≤ 0 then m.kmSamples.getD 0 0
  else if m.pxCumulative.getD (m.pxCumulative.length - 1) 0 ≤ px then
    m.kmSamples.getD (m.kmSamples.length - 1) 0
  else
    m.kmSamples.getD
        (srchAux m.pxCumulative px m.pxCumulative.length 0 (m.pxCumulative.length - 1)).1 0 +
      (px - m.pxCumulative.getD
          (srchAux m.pxCumulative px m.pxCumulative.length 0 (m.pxCumulative.length - 1)).1 0) /
        (m.pxCumulative.getD
            (srchAux m.pxCumulative px m.pxCumulative.length 0 (m.pxCumulative.length - 1)).2 0 -
          m.pxCumulative.getD
            (srchAux m.pxCumulative px m.pxCumulative.length 0 (m.pxCumulative.length - 1)).1 0) *
      (m.kmSamples.getD
          (srchAux m.pxCumulative px m.pxCumulative.length 0 (m.pxCumulative.length - 1)).2 0 -
        m.kmSamples.getD
          (srchAux m.pxCumulative px m.pxCumulative.length 0 (m.pxCumulative.length - 1)).1 0)

/-- `kmToPx` (`LoadingScreen.tsx` lines 466–480): the reverse query over
the same two arrays, clamping at both endpoints of `kmSamples` and
interpolating `pxCumulative` in between. -/
def kmToPx (targetKm : ℚ) (m : ScrollMapping) : ℚ :=
  if m.kmSamples.length = 0 then 0
  else if targetKm ≤ m.kmSamples.getD 0 0 then m.pxCumulative.getD 0 0
  else if m.kmSamples.getD (m.kmSamples.length - 1) 0 ≤ targetKm then
    m.pxCumulative.getD (m.kmSamples.length - 1) 0
  else
    m.pxCumulative.getD
        (srchAux m.kmSamples targetKm m.kmSamples.length 0 (m.kmSamples.length - 1)).1 0 +
      (targetKm - m.kmSamples.getD
          (srchAux m.kmSamples targetKm m.kmSamples.length 0 (m.kmSamples.length - 1)).1 0) /
        (m.kmSamples.getD
            (srchAux m.kmSamples targetKm m.kmSamples.length 0 (m.kmSamples.length - 1)).2 0 -
          m.kmSamples.getD
            (srchAux m.kmSamples targetKm m.kmSamples.length 0 (m.kmSamples.length - 1)).1 0) *
      (m.pxCumulative.getD
          (srchAux m.kmSamples targetKm m.kmSamples.length 0 (m.kmSamples.length - 1)).2 0 -
        m.pxCumulative.getD
          (srchAux m.kmSamples targetKm m.kmSamples.length 0 (m.kmSamples.length - 1)).1 0)

/-! Active-waypoint search of `handleScroll` (`LoadingScreen.tsx` lines
666–675): the loop runs over indices `firstIdx … lastIdx`, excluding the
first and last points when more than two exist, and breaks at the first
index within `POI_WINDOW_KM`. -/

/-- `firstIdx = snappedPoints.length > 2 ? 1 : 0`. -/
def eligibleFirstIdx (pts : List SnappedPoint) : ℕ :=
  if 2 < pts.length then 1 else 0

/-- `lastIdx = snappedPoints.length > 2 ? length - 2 : length - 1`
(kept in `ℤ` so that the empty list gives `-1` and an empty loop, as in
JS). -/
def eligibleLastIdx (pts : List SnappedPoint) : ℤ :=
  if 2 < pts.length then (pts.length : ℤ) - 2 else (pts.length : ℤ) - 1

/-- The index sequence `firstIdx, …, lastIdx` the activation loop visits. -/
def eligibleIdxs (pts : List SnappedPoint) : List ℕ :=
  List.range' (eligibleFirstIdx pts)
    ((eligibleLastIdx pts + 1 - eligibleFirstIdx pts).toNat)

/-- Loop test: `Math.abs(km - snappedPoints[i].distanceAlongPath) <= POI_WINDOW_KM`. -/
def withinWindow (pts : List SnappedPoint) (km : ℚ) (i : ℕ) : Bool :=
  decide (|km - (pts.getD i default).distanceAlongPath| ≤ POI_WINDOW_KM)

/-- The `newActive` computed by `handleScroll`: first eligible index whose
distance is within the dwell window of `km`, else `none`. -/
def activePoiIndex (pts : List SnappedPoint) (km : ℚ) : Option ℕ :=
  (eligibleIdxs pts).find? (withinWindow pts km)

/-! Section ranges (`LoadingScreen.tsx` lines 566–590) and the section
part of `handleScroll` (lines 677–690). -/

/-- `innerPoints`: `snappedPoints.length > 2 ? snappedPoints.slice(1, -1) :
snappedPoints`. -/
def innerPoints (pts : List SnappedPoint) : List SnappedPoint :=
  if 2 < pts.length then (pts.drop 1).dropLast else pts

/-- Interface of the per-section km ranges. -/
structure SectionRange where
  sectionName : String
  minKm : ℚ
  maxKm : ℚ
deriving DecidableEq, Repr, Inhabited

/-- Loop body of the `sectionRanges` `useMemo`, with the accumulator kept
in reverse so the most recent range is at the head (`ranges[ranges.length
- 1]` in JS). -/
def sectionRangesAux : List SectionRange → List SnappedPoint → List SectionRange
  | acc, [] => acc.reverse
  | acc, sp :: rest =>
    if sp.sectionName = "" then sectionRangesAux acc rest
    else
      match acc with
      | r :: tail =>
        if r.sectionName = sp.sectionName then
          sectionRangesAux
            ({ r with maxKm := sp.distanceAlongPath + POI_WINDOW_KM } :: tail) rest
        else
          sectionRangesAux
            (⟨sp.sectionName, sp.distanceAlongPath - POI_WINDOW_KM,
              sp.distanceAlongPath + POI_WINDOW_KM⟩ :: r :: tail) rest
      | [] =>
        sectionRangesAux
          [⟨sp.sectionName, sp.distanceAlongPath - POI_WINDOW_KM,
            sp.distanceAlongPath + POI_WINDOW_KM⟩] rest

/-- `sectionRanges`: merge consecutive same-section inner points (skipping
empty section names) into `[first − POI_WINDOW_KM, last + POI_WINDOW_KM]`
ranges. -/
def sectionRanges (pts : List SnappedPoint) : List SectionRange :=
  sectionRangesAux [] (innerPoints pts)

/-- Section-header part of `handleScroll`: the first range containing `km`
decides visibility and the displayed name (`newSectionVisible`,
`newSectionName`). -/
def sectionHeaderState (ranges : List SectionRange) (km : ℚ) : Bool × String :=
  match ranges.find? (fun r => decide (r.minKm ≤ km) && decide (km ≤ r.maxKm)) with
  | some r => (true, r.sectionName)
  | none => (false, "")

/-! Cross-fade debounce (`LoadingScreen.tsx` lines 697–714).  The
`useEffect` body is embedded as a transition function on an explicit
state; `setTimeout` handles are modelled as a list of live `(id, payload)`
timers plus the `detailTimerRef` cell, and elapsing of the 280 ms delay as
a `fire` event that has an effect only while its timer is still live.  A
`change` event before the matching `fire` is exactly an active-waypoint
change arriving before the swap delay elapses. -/

structure FadeState where
  displayedPoi : Option ℕ
  detailVisible : Bool
  timers : List (ℕ × ℕ)
  timerRef : Option ℕ
  nextId : ℕ
  swapCount : ℕ
deriving DecidableEq, Repr

/-- The initial state: nothing displayed, nothing pending. -/
def initFade : FadeState :=
  ⟨none, false, [], none, 0, 0⟩

inductive FadeEvent where
  | change (activePoi : Option ℕ)
  | fire (id : ℕ)
deriving DecidableEq, Repr

/-- `if (detailTimerRef.current !== null) clearTimeout(detailTimerRef.current)`. -/
def clearRefTimer (s : FadeState) : FadeState :=
  match s.timerRef with
  | some tid => { s with timers := s.timers.filter (fun t => t.1 ≠ tid) }
  | none => s

/-- One step of the cross-fade effect.  `change a` is the `useEffect` body
running with `activePoi = a`; `fire tid` is the `setTimeout` callback of
timer `tid` running (a no-op if that timer was cancelled), which swaps
`displayedPoi` and counts one content swap. -/
def stepFade (s : FadeState) : FadeEvent → FadeState
  | .change none =>
    let s' := clearRefTimer s
    { s' with detailVisible := false }
  | .change (some p) =>
    let s' := clearRefTimer s
    if s'.displayedPoi = some p then { s' with detailVisible := true }
    else
      { s' with detailVisible := false,
                timers := s'.timers ++ [(s'.nextId, p)],
                timerRef := some s'.nextId,
                nextId := s'.nextId + 1 }
  | .fire tid =>
    match s.timers.find? (fun t => t.1 = tid) with
    | some t =>
      { s with timers := s.timers.filter (fun u => u.1 ≠ tid),
               displayedPoi := some t.2, detailVisible := true,
               swapCount := s.swapCount + 1 }
    | none => s

/-- Run a sequence of cross-fade events. -/
def runFade (s : FadeState) (evs : List FadeEvent) : FadeState :=
  evs.foldl stepFade s

/-! ProgressBar (`src/components/ProgressBar.tsx`).  `galleryPxs` is the
record of measured anchor positions, modelled as a partial map from
element ids to pixel positions; an absent entry is an unmeasured anchor.
`Infinity` is modelled as `⊤` in `WithTop ℚ`. -/

structure ProgressBarItem where
  id : String
  label : String
  scrollPx : ℚ
  elementId : Option String
  parentId : Option String
deriving DecidableEq, Repr, Inhabited

/-- `effectivePx` (`ProgressBar.tsx` lines 58–59):
`item.elementId ? (galleryPxs[item.elementId] ?? Infinity) : item.scrollPx`. -/
def effectivePx (galleryPxs : String → Option ℚ) (item : ProgressBarItem) : WithTop ℚ :=
  match item.elementId with
  | some eid =>
    match galleryPxs eid with
    | some v => (v : WithTop ℚ)
    | none => ⊤
  | none => (item.scrollPx : WithTop ℚ)

/-- `atBottom` signal (`ProgressBar.tsx` lines 28–31):
`el.scrollTop + el.clientHeight >= el.scrollHeight - 5`. -/
def atBottom (scrollTop clientHeight scrollHeight : ℚ) : Bool :=
  decide (scrollHeight - 5 ≤ scrollTop + clientHeight)

/-- `activeIndex` (`ProgressBar.tsx` lines 61–79) over the visible items:
at the bottom the last index is forced; otherwise the reduce keeps the
last index whose effective position is `≤ scrollTop + 1` (the +1px
epsilon), starting from `0`. -/
def activeIndex (items : List ProgressBarItem) (scrollTop : ℚ) (bottom : Bool)
    (galleryPxs : String → Option ℚ) : ℕ :=
  if bottom then items.length - 1
  else
    (List.range items.length).foldl
      (fun best i =>
        if effectivePx galleryPxs (items.getD i default) ≤ ((scrollTop + 1 : ℚ) : WithTop ℚ)
        then i else best)
      0

/-! Loader (`LoadingScreen.tsx` lines 51–67 and the `snappedPoints` block
of `unnamed/part_002` lines 101–125).  `turf.nearestPointOnLine` is an
external collaborator; its per-feature outcome is the input here: the id
of the labelled point together with `snapped.properties.location`, which
is `none` when the projection yields no distance (the `?? 0` source). -/

structure LabelledFeature where
  narrativeId : ℕ
  sectionName : String
  subsectionName : String
  snapLocation : Option ℚ
deriving DecidableEq, Repr, Inhabited

/-- The `SnappedPoint` built for one feature: `distanceAlongPath =
snapped.properties.location ?? 0`. -/
def snapFeature (f : LabelledFeature) : SnappedPoint :=
  ⟨f.narrativeId, f.sectionName, f.subsectionName, f.snapLocation.getD 0⟩

/-- Comparator used by `snappedPoints.sort((a, b) => a.distanceAlongPath -
b.distanceAlongPath)`. -/
def byDistance (a b : SnappedPoint) : Bool :=
  decide (a.distanceAlongPath ≤ b.distanceAlongPath)

/-- `snappedPoints` of the loader: map every feature to a waypoint, then
sort by distance along the path. -/
def snappedPoints (feats : List LabelledFeature) : List SnappedPoint :=
  (feats.map snapFeature).mergeSort byDistance

/-! Supporting lemmas for the cross-fade state machine. -/

/-- The structural invariant of the debounce: every live timer is the one
`detailTimerRef` points at, hence at most one timer is ever outstanding. -/
def fadeInv (s : FadeState) : Prop :=
  s.timers.length ≤ 1 ∧ ∀ t ∈ s.timers, s.timerRef = some t.1

lemma clearRefTimer_timers_eq_nil {s : FadeState}
    (h : ∀ t ∈ s.timers, s.timerRef = some t.1) :
    (clearRefTimer s).timers = [] := by
  unfold clearRefTimer
  cases href : s.timerRef with
  | none =>
    have : s.timers = [] := by
      cases ht : s.timers with
      | nil => rfl
      | cons a l =>
        have := h a (by simp [ht])
        rw [href] at this
        exact absurd this (by simp)
    simp [this]
  | some tid =>
    simp only [List.filter_eq_nil_iff]
    intro t ht
    have := h t ht
    rw [href] at this
    simp only [Option.some.injEq] at this
    simp [this]

lemma clearRefTimer_displayedPoi (s : FadeState) :
    (clearRefTimer s).displayedPoi = s.displayedPoi := by
  unfold clearRefTimer; cases h : s.timerRef <;> simp [h]

lemma clearRefTimer_timerRef (s : FadeState) :
    (clearRefTimer s).timerRef = s.timerRef := by
  unfold clearRefTimer; cases h : s.timerRef <;> simp [h]

lemma clearRefTimer_nextId (s : FadeState) :
    (clearRefTimer s).nextId = s.nextId := by
  unfold clearRefTimer; cases h : s.timerRef <;> simp [h]

lemma clearRefTimer_swapCount (s : FadeState) :
    (clearRefTimer s).swapCount = s.swapCount := by
  unfold clearRefTimer; cases h : s.timerRef <;> simp [h]

lemma clearRefTimer_inv {s : FadeState} (h : fadeInv s) : fadeInv (clearRefTimer s) := by
  have hnil := clearRefTimer_timers_eq_nil h.2
  constructor
  · simp [hnil]
  · intro t ht
    rw [hnil] at ht
    exact absurd ht (by simp)

lemma stepFade_inv {s : FadeState} (h : fadeInv s) (e : FadeEvent) :
    fadeInv (stepFade s e) := by
  cases e with
  | change a =>
    cases a with
    | none =>
      simp only [stepFade]
      have h' := clearRefTimer_inv h
      exact ⟨h'.1, h'.2⟩
    | some p =>
      simp only [stepFade]
      have hnil := clearRefTimer_timers_eq_nil h.2
      by_cases hd : (clearRefTimer s).displayedPoi = some p
      · rw [if_pos hd]
        have h' := clearRefTimer_inv h
        exact ⟨h'.1, h'.2⟩
      · rw [if_neg hd]
        refine ⟨by simp [hnil], ?_⟩
        intro t ht
        simp only [hnil, List.nil_append, List.mem_singleton] at ht
        simp [ht]
  | fire tid =>
    simp only [stepFade]
    cases hf : s.timers.find? (fun t => t.1 = tid) with
    | none => exact h
    | some t =>
      refine ⟨le_trans (List.length_filter_le _ _) h.1, ?_⟩
      intro u hu
      exact h.2 u (List.mem_of_mem_filter hu)

lemma runFade_inv {s : FadeState} (h : fadeInv s) (evs : List FadeEvent) :
    fadeInv (runFade s evs) := by
  induction evs generalizing s with
  | nil => exact h
  | cons e rest ih => exact ih (stepFade_inv h e)

/-- C6: if the active waypoint changes to `a` and then to `b ≠ a` before
the 280 ms timer fires, the later change cancels and replaces the pending
timer: after the two changes exactly one timer is live and it carries `b`;
letting both timers' deadlines elapse produces exactly one content swap,
to `b` (the stale `fire 0` is a no-op); and along any event sequence at
most one timer is ever outstanding. -/
theorem debounce_single_swap (a b : ℕ) (_hab : a ≠ b) :
    (runFade initFade [.change (some a), .change (some b)]).timers = [(1, b)] ∧
    (runFade initFade
        [.change (some a), .change (some b), .fire 0, .fire 1]).swapCount = 1 ∧
    (runFade initFade
        [.change (some a), .change (some b), .fire 0, .fire 1]).displayedPoi = some b ∧
    (runFade initFade [.change (some a), .change (some b), .fire 0]) =
      runFade initFade [.change (some a), .change (some b)] ∧
    (∀ evs : List FadeEvent, (runFade initFade evs).timers.length ≤ 1) := by
  refine ⟨?_, ?_, ?_, ?_, ?_⟩
  · simp [runFade, initFade, stepFade, clearRefTimer, List.filter]
  · simp [runFade, initFade, stepFade, clearRefTimer, List.filter, List.find?]
  · simp [runFade, initFade, stepFade, clearRefTimer, List.filter, List.find?]
  · simp [runFade, initFade, stepFade, clearRefTimer, List.filter, List.find?]
  · intro evs
    exact (runFade_inv (by simp [initFade, fadeInv]) evs).1

/-- Closed witness for `debounce_single_swap` at `a = 3`, `b = 7`. -/
theorem debounce_single_swap_witness :
    (runFade initFade [.change (some 3), .change (some 7)]).timers = [(1, 7)] ∧
    (runFade initFade
        [.change (some 3), .change (some 7), .fire 0, .fire 1]).displayedPoi = some 7 := by
  have h := debounce_single_swap 3 7 (by decide)
  exact ⟨h.1, h.2.2.1⟩

/-! Supporting lemmas for the ProgressBar `reduce`. -/

lemma foldl_select_mem {P : ℕ → Prop} [DecidablePred P] (l : List ℕ) (init : ℕ) :
    l.foldl (fun best i => if P i then i else best) init = init ∨
    (l.foldl (fun best i => if P i then i else best) init ∈ l ∧
      P (l.foldl (fun best i => if P i then i else best) init)) := by
  induction l generalizing init with
  | nil => exact Or.inl rfl
  | cons a l ih =>
    simp only [List.foldl_cons]
    by_cases ha : P a
    · rw [if_pos ha]
      rcases ih a with h | h
      · exact Or.inr ⟨by simp [h], by rw [h]; exact ha⟩
      · exact Or.inr ⟨by simp [h.1], h.2⟩
    · rw [if_neg ha]
      rcases ih init with h | h
      · exact Or.inl h
      · exact Or.inr ⟨by simp [h.1], h.2⟩

/-- C8: whenever the scroller reports `scrollTop + clientHeight ≥
scrollHeight − 5`, the `atBottom` flag is set and `activeIndex` is forced
to the last item of the list, whatever the items, the measured anchor
positions and the offset used by the position test. -/
theorem at_bottom_forces_last (scrollTop clientHeight scrollHeight st : ℚ)
    (items : List ProgressBarItem) (galleryPxs : String → Option ℚ)
    (h : scrollHeight - 5 ≤ scrollTop + clientHeight) :
    atBottom scrollTop clientHeight scrollHeight = true ∧
    activeIndex items st (atBottom scrollTop clientHeight scrollHeight) galleryPxs =
      items.length - 1 := by
  have hb : atBottom scrollTop clientHeight scrollHeight = true := by
    simp [atBottom, h]
  exact ⟨hb, by rw [hb]; simp [activeIndex]⟩

/-- Closed witness for `at_bottom_forces_last`: a scroller at its maximum
extent with two items forces index 1. -/
theorem at_bottom_forces_last_witness :
    atBottom 1000 600 1600 = true ∧
    activeIndex [⟨"a", "A", 0, none, none⟩, ⟨"b", "B", 50, none, none⟩] 0
      (atBottom 1000 600 1600) (fun _ => none) = 1 := by
  have h := at_bottom_forces_last 1000 600 1600 0
    [⟨"a", "A", 0, none, none⟩, ⟨"b", "B", 50, none, none⟩] (fun _ => none)
    (by norm_num)
  exact ⟨h.1, h.2⟩

/-- C7 (counterexample): a single anchor-bound item whose position is
unmeasured has effective position `⊤`, yet `activeIndex` selects it (as
the index-0 fallback of the reduce) even at a raw offset equal to the
item's mapped total range — the claim that an unmeasured item is never
selected fails. -/
theorem unmeasured_anchor_selected :
    effectivePx (fun _ => none) ⟨"pricing", "Pricing", 100, some "gallery-pricing", none⟩ = ⊤ ∧
    activeIndex [⟨"pricing", "Pricing", 100, some "gallery-pricing", none⟩] 100 false
      (fun _ => none) = 0 := by
  constructor
  · simp [effectivePx]
  · simp [activeIndex, List.range_succ]

/-- C7 (amended): an unmeasured anchor-bound item's effective position is
unreachable (`⊤`), so it can never pass the `ST ≥ effectivePx` test; away
from the bottom, `activeIndex` returns an unmeasured item only through
the index-0 fallback — any selected index other than 0 passed the test
and therefore has a finite (measured or mapping-derived) position. -/
theorem unmeasured_anchor_unreachable (items : List ProgressBarItem)
    (galleryPxs : String → Option ℚ) (st : ℚ) (item : ProgressBarItem)
    (eid : String) (i : ℕ) :
    (item.elementId = some eid → galleryPxs eid = none →
      effectivePx galleryPxs item = ⊤) ∧
    (activeIndex items st false galleryPxs = i → 0 < i →
      effectivePx galleryPxs (items.getD i default) ≤ ((st + 1 : ℚ) : WithTop ℚ) ∧
      effectivePx galleryPxs (items.getD i default) ≠ ⊤) := by
  constructor
  · intro he hg
    simp [effectivePx, he, hg]
  · intro hact hi
    have hfold := @foldl_select_mem
      (fun j => effectivePx galleryPxs (items.getD j default) ≤ ((st + 1 : ℚ) : WithTop ℚ)) _
      (List.range items.length) 0
    have heq : activeIndex items st false galleryPxs =
        (List.range items.length).foldl
          (fun best j => if effectivePx galleryPxs (items.getD j default) ≤
            ((st + 1 : ℚ) : WithTop ℚ) then j else best) 0 := by
      simp [activeIndex]
    rw [hact] at heq
    rw [← heq] at hfold
    rcases hfold with h | h
    · omega
    · refine ⟨h.2, ?_⟩
      intro htop
      rw [htop] at h
      exact (lt_irrefl _ (lt_of_le_of_lt h.2 (WithTop.coe_lt_top _)))

/-- Closed witness for `unmeasured_anchor_unreachable`: with one narrative
item at 0 px and one at 3 px, offset 5 selects index 1, whose effective
position is finite. -/
theorem unmeasured_anchor_unreachable_witness :
    effectivePx (fun _ => none) ⟨"c", "Contact", 9, some "gallery-contact", none⟩ = ⊤ ∧
    effectivePx (fun _ => none)
      ([⟨"a", "A", 0, none, none⟩, ⟨"b", "B", 3, none, none⟩].getD 1 default) ≠ ⊤ := by
  have h := unmeasured_anchor_unreachable
    [⟨"a", "A", 0, none, none⟩, ⟨"b", "B", 3, none, none⟩]
    (fun _ => none) 5 ⟨"c", "Contact", 9, some "gallery-contact", none⟩ "gallery-contact" 1
  have hidx : activeIndex [⟨"a", "A", 0, none, none⟩, ⟨"b", "B", 3, none, none⟩] 5 false
      (fun _ => none) = 1 := by
    norm_num [activeIndex, List.range_succ, effectivePx, WithTop.coe_le_coe]
    exact_mod_cast (by norm_num : (3:ℚ) ≤ (6:ℚ))
  exact ⟨h.1 rfl rfl, (h.2 hidx (by decide)).2⟩

/-! Supporting lemmas for the activation loop. -/

lemma mem_range'_iff {s n m : ℕ} : m ∈ List.range' s n ↔ s ≤ m ∧ m < s + n := by
  rw [List.mem_range']
  constructor
  · rintro ⟨i, hi, rfl⟩
    omega
  · rintro ⟨h1, h2⟩
    exact ⟨m - s, by omega, by omega⟩

lemma find?_pairwise_lt {l : List ℕ} (hl : List.Pairwise (· < ·) l) {p : ℕ → Bool} {i : ℕ}
    (h : l.find? p = some i) :
    i ∈ l ∧ p i = true ∧ ∀ j ∈ l, j < i → p j = false := by
  induction l with
  | nil => simp at h
  | cons a l ih =>
    cases hpa : p a with
    | true =>
      simp only [List.find?, hpa, Option.some.injEq] at h
      subst h
      refine ⟨List.mem_cons_self a l, hpa, ?_⟩
      intro j hj hji
      rcases List.mem_cons.1 hj with rfl | hjl
      · omega
      · have := (List.pairwise_cons.1 hl).1 j hjl
        omega
    | false =>
      simp only [List.find?, hpa] at h
      obtain ⟨hmem, hpi, hmin⟩ := ih (List.pairwise_cons.1 hl).2 h
      refine ⟨List.mem_cons_of_mem a hmem, hpi, ?_⟩
      intro j hj hji
      rcases List.mem_cons.1 hj with rfl | hjl
      · exact hpa
      · exact hmin j hjl hji

lemma mem_eligibleIdxs {pts : List SnappedPoint} {i : ℕ} :
    i ∈ eligibleIdxs pts ↔
      eligibleFirstIdx pts ≤ i ∧ (i : ℤ) ≤ eligibleLastIdx pts := by
  by_cases h2 : 2 < pts.length
  · simp only [eligibleIdxs, eligibleFirstIdx, eligibleLastIdx, if_pos h2, mem_range'_iff]
    omega
  · simp only [eligibleIdxs, eligibleFirstIdx, eligibleLastIdx, if_neg h2, mem_range'_iff]
    omega

/-- C3: the active waypoint computed by `handleScroll` is the first
(lowest-index) waypoint among the eligible ones (indices from
`eligibleFirstIdx` to `eligibleLastIdx`, which exclude the first and last
waypoints exactly when the set has more than two) whose distance is
within the closed window `|km − d| ≤ POI_WINDOW_KM`; when no eligible
waypoint is within the window, none is active. -/
theorem active_waypoint_rule (pts : List SnappedPoint) (km : ℚ) :
    (∀ i, activePoiIndex pts km = some i →
      i ∈ eligibleIdxs pts ∧
      |km - (pts.getD i default).distanceAlongPath| ≤ POI_WINDOW_KM ∧
      ∀ j ∈ eligibleIdxs pts, j < i →
        ¬(|km - (pts.getD j default).distanceAlongPath| ≤ POI_WINDOW_KM)) ∧
    (activePoiIndex pts km = none ↔
      ∀ i ∈ eligibleIdxs pts,
        ¬(|km - (pts.getD i default).distanceAlongPath| ≤ POI_WINDOW_KM)) ∧
    (2 < pts.length →
      0 ∉ eligibleIdxs pts ∧ pts.length - 1 ∉ eligibleIdxs pts ∧
      ∀ i, 1 ≤ i → i + 2 ≤ pts.length → i ∈ eligibleIdxs pts) ∧
    (pts.length ≤ 2 → ∀ i, i < pts.length → i ∈ eligibleIdxs pts) := by
  have hpw : List.Pairwise (· < ·) (eligibleIdxs pts) := List.pairwise_lt_range' _ _
  refine ⟨?_, ?_, ?_, ?_⟩
  · intro i h
    obtain ⟨hmem, hpi, hmin⟩ := find?_pairwise_lt hpw h
    refine ⟨hmem, of_decide_eq_true hpi, ?_⟩
    intro j hj hji
    exact of_decide_eq_false (hmin j hj hji)
  · rw [activePoiIndex, List.find?_eq_none]
    constructor
    · intro h i hi
      exact of_decide_eq_false (Bool.not_eq_true _ ▸ (Bool.eq_false_iff.2 (h i hi)))
    · intro h i hi
      simp only [withinWindow, decide_eq_true_eq]
      exact h i hi
  · intro h2
    refine ⟨?_, ?_, ?_⟩
    · rw [mem_eligibleIdxs]
      simp only [eligibleFirstIdx, if_pos h2]
      omega
    · rw [mem_eligibleIdxs]
      simp only [eligibleFirstIdx, eligibleLastIdx, if_pos h2]
      omega
    · intro i h1 hlen
      rw [mem_eligibleIdxs]
      simp only [eligibleFirstIdx, eligibleLastIdx, if_pos h2]
      omega
  · intro h2 i hi
    have h2' : ¬ 2 < pts.length := by omega
    rw [mem_eligibleIdxs]
    simp only [eligibleFirstIdx, eligibleLastIdx, if_neg h2']
    omega

/-- Closed witness for `active_waypoint_rule`: four waypoints at 0, 30,
60, 90 km; at `km = 35` waypoint index 1 is eligible and within its dwell
window. -/
theorem active_waypoint_rule_witness :
    1 ∈ eligibleIdxs
        [⟨0, "", "s", 0⟩, ⟨1, "A", "a", 30⟩, ⟨2, "B", "b", 60⟩, ⟨3, "", "e", 90⟩] ∧
    |(35 : ℚ) -
        (([⟨0, "", "s", 0⟩, ⟨1, "A", "a", 30⟩, ⟨2, "B", "b", 60⟩,
            ⟨3, "", "e", 90⟩] : List SnappedPoint).getD 1 default).distanceAlongPath| ≤
      POI_WINDOW_KM := by
  have hfind : activePoiIndex
      [⟨0, "", "s", 0⟩, ⟨1, "A", "a", 30⟩, ⟨2, "B", "b", 60⟩, ⟨3, "", "e", 90⟩] 35 =
      some 1 := by
    have : eligibleIdxs
        [⟨0, "", "s", 0⟩, ⟨1, "A", "a", 30⟩, ⟨2, "B", "b", 60⟩, ⟨3, "", "e", 90⟩] = [1, 2] := by
      simp [eligibleIdxs, eligibleFirstIdx, eligibleLastIdx, List.range']
    rw [activePoiIndex, this]
    have hw : withinWindow
        [⟨0, "", "s", 0⟩, ⟨1, "A", "a", 30⟩, ⟨2, "B", "b", 60⟩, ⟨3, "", "e", 90⟩] 35 1 = true := by
      simp only [withinWindow, decide_eq_true_eq]
      norm_num [POI_WINDOW_KM]
    simp [List.find?, hw]
  have h := (active_waypoint_rule
      [⟨0, "", "s", 0⟩, ⟨1, "A", "a", 30⟩, ⟨2, "B", "b", 60⟩, ⟨3, "", "e", 90⟩] 35).1 1 hfind
  exact ⟨h.1, h.2.1⟩

/-! Loader claims. -/

/-- C9 (counterexample): a labelled point whose projection yields no
distance (`snapped.properties.location` undefined) is not dropped — the
loader keeps it with `distanceAlongPath = 0` (the `?? 0` default), so the
output has the same length as the input. -/
theorem failed_projection_kept :
    (snappedPoints [⟨7, "A", "a", none⟩]).length = 1 ∧
    (⟨7, "A", "a", (0 : ℚ)⟩ : SnappedPoint) ∈ snappedPoints [⟨7, "A", "a", none⟩] := by
  constructor
  · rw [snappedPoints, (List.mergeSort_perm _ _).length_eq]
    rfl
  · rw [snappedPoints, (List.mergeSort_perm _ _).mem_iff]
    simp [snapFeature]

/-- C9 (amended): the loader performs no validity filtering and reports no
warning: every labelled point yields exactly one waypoint (the output is
a permutation of the 1-to-1 snapped image of the input, so nothing is
dropped), a failed projection defaults its distance to 0, and the
resulting set — from which the scroll mapping is built — is sorted by
distance along the path. -/
theorem loader_keeps_all_points (feats : List LabelledFeature) :
    (snappedPoints feats).Perm (feats.map snapFeature) ∧
    (snappedPoints feats).length = feats.length ∧
    List.Sorted (fun a b : SnappedPoint => a.distanceAlongPath ≤ b.distanceAlongPath)
      (snappedPoints feats) ∧
    ∀ f : LabelledFeature, f.snapLocation = none →
      snapFeature f = ⟨f.narrativeId, f.sectionName, f.subsectionName, 0⟩ := by
  refine ⟨List.mergeSort_perm _ _, ?_, ?_, ?_⟩
  · rw [snappedPoints, (List.mergeSort_perm _ _).length_eq, List.length_map]
  · have hs := @List.sorted_mergeSort SnappedPoint byDistance
      ?_ ?_ (feats.map snapFeature)
    · exact hs.imp (fun h => of_decide_eq_true h)
    · intro a b c hab hbc
      simp only [byDistance, decide_eq_true_eq] at hab hbc ⊢
      exact le_trans hab hbc
    · intro a b
      simp only [byDistance, Bool.or_eq_true, decide_eq_true_eq]
      exact le_total _ _
  · intro f hf
    simp [snapFeature, hf]

/-- Closed witness for `loader_keeps_all_points`: one failed and one
successful projection are both kept, in sorted order. -/
theorem loader_keeps_all_points_witness :
    (snappedPoints [⟨7, "A", "a", none⟩, ⟨3, "B", "b", some 5⟩]).length = 2 ∧
    snapFeature ⟨7, "A", "a", none⟩ = ⟨7, "A", "a", 0⟩ := by
  have h := loader_keeps_all_points [⟨7, "A", "a", none⟩, ⟨3, "B", "b", some 5⟩]
  exact ⟨h.2.1, h.2.2.2 ⟨7, "A", "a", none⟩ rfl⟩

/-! Supporting lemmas for the scroll mapping. -/

lemma getD_map_range (f : ℕ → ℚ) {n i : ℕ} (h : i < n) :
    ((List.range n).map f).getD i 0 = f i := by
  rw [List.getD_eq_getElem _ _ (by simpa using h), List.getElem_map, List.getElem_range]

lemma build_kmSamples (p : SnappedPoint) (rest : List SnappedPoint) :
    (buildScrollMapping (p :: rest)).kmSamples =
      (List.range (numStepsOf (startKmOf (p :: rest)) (endKmOf (p :: rest)) + 1)).map
        (fun i => sampleKm (startKmOf (p :: rest)) (endKmOf (p :: rest)) i) := rfl

lemma build_pxCumulative (p : SnappedPoint) (rest : List SnappedPoint) :
    (buildScrollMapping (p :: rest)).pxCumulative =
      (List.range (numStepsOf (startKmOf (p :: rest)) (endKmOf (p :: rest)) + 1)).map
        (fun i => cumPx (p :: rest) (startKmOf (p :: rest)) (endKmOf (p :: rest)) i) := rfl

lemma build_totalPx (p : SnappedPoint) (rest : List SnappedPoint) :
    (buildScrollMapping (p :: rest)).totalPx =
      cumPx (p :: rest) (startKmOf (p :: rest)) (endKmOf (p :: rest))
        (numStepsOf (startKmOf (p :: rest)) (endKmOf (p :: rest))) +
      BASE_PX_PER_KM * (1/2) := rfl

lemma STEP_KM_pos : (0 : ℚ) < STEP_KM := by norm_num [STEP_KM]

lemma sampleKm_mono (S E : ℚ) {i j : ℕ} (h : i ≤ j) :
    sampleKm S E i ≤ sampleKm S E j := by
  unfold sampleKm
  have hq : (i : ℚ) * STEP_KM ≤ (j : ℚ) * STEP_KM :=
    mul_le_mul_of_nonneg_right (Nat.cast_le.2 h) (le_of_lt STEP_KM_pos)
  exact add_le_add_left (min_le_min hq le_rfl) S

lemma sampleKm_zero (S E : ℚ) (h : S ≤ E) : sampleKm S E 0 = S := by
  unfold sampleKm
  rw [Nat.cast_zero, zero_mul, min_eq_left (by linarith)]
  ring

lemma sampleKm_const_of_nonpos (S E : ℚ) (hL : E - S ≤ 0) (i : ℕ) :
    sampleKm S E i = E := by
  unfold sampleKm
  have h0 : (0 : ℚ) ≤ (i : ℚ) * STEP_KM :=
    mul_nonneg (Nat.cast_nonneg i) (le_of_lt STEP_KM_pos)
  rw [min_eq_right (le_trans hL h0)]
  ring

lemma sampleKm_last (S E : ℚ) : sampleKm S E (numStepsOf S E) = E := by
  rcases le_or_lt (E - S) 0 with hL | hL
  · exact sampleKm_const_of_nonpos S E hL _
  · unfold sampleKm
    have hceil : 0 < ⌈(E - S) / STEP_KM⌉ := Int.ceil_pos.2 (div_pos hL STEP_KM_pos)
    have htoNat : ((⌈(E - S) / STEP_KM⌉.toNat : ℤ) : ℚ) = ((⌈(E - S) / STEP_KM⌉ : ℤ) : ℚ) := by
      rw [Int.toNat_of_nonneg (le_of_lt hceil)]
    have hle1 : E - S ≤ (⌈(E - S) / STEP_KM⌉ : ℚ) * STEP_KM := by
      have := Int.le_ceil ((E - S) / STEP_KM)
      calc E - S = ((E - S) / STEP_KM) * STEP_KM :=
            (div_mul_cancel₀ _ (ne_of_gt STEP_KM_pos)).symm
        _ ≤ (⌈(E - S) / STEP_KM⌉ : ℚ) * STEP_KM :=
            mul_le_mul_of_nonneg_right this (le_of_lt STEP_KM_pos)
    have hle2 : E - S ≤ ((numStepsOf S E : ℕ) : ℚ) * STEP_KM := by
      have hN : (⌈(E - S) / STEP_KM⌉.toNat : ℕ) ≤ numStepsOf S E := Nat.le_max_left _ _
      have : ((⌈(E - S) / STEP_KM⌉.toNat : ℕ) : ℚ) ≤ ((numStepsOf S E : ℕ) : ℚ) :=
        Nat.cast_le.2 hN
      calc E - S ≤ (⌈(E - S) / STEP_KM⌉ : ℚ) * STEP_KM := hle1
        _ = ((⌈(E - S) / STEP_KM⌉.toNat : ℕ) : ℚ) * STEP_KM := by
            rw [show ((⌈(E - S) / STEP_KM⌉.toNat : ℕ) : ℚ) = (⌈(E - S) / STEP_KM⌉ : ℚ) by
              exact_mod_cast htoNat]
        _ ≤ ((numStepsOf S E : ℕ) : ℚ) * STEP_KM :=
            mul_le_mul_of_nonneg_right this (le_of_lt STEP_KM_pos)
    rw [min_eq_right hle2]
    ring

lemma sampleKm_strict (S E : ℚ) (hL : 0 < E - S) {i : ℕ} (hi : i < numStepsOf S E) :
    sampleKm S E i < sampleKm S E (i + 1) := by
  have hceil : 0 < ⌈(E - S) / STEP_KM⌉ := Int.ceil_pos.2 (div_pos hL STEP_KM_pos)
  have hN : numStepsOf S E = ⌈(E - S) / STEP_KM⌉.toNat := by
    unfold numStepsOf
    exact max_eq_left (by omega)
  rw [hN] at hi
  have h1 : (i : ℤ) < ⌈(E - S) / STEP_KM⌉ := by omega
  have h2 : (i : ℚ) < (E - S) / STEP_KM := by exact_mod_cast Int.lt_ceil.1 h1
  have hiQ : (i : ℚ) * STEP_KM < E - S := by
    calc (i : ℚ) * STEP_KM < ((E - S) / STEP_KM) * STEP_KM :=
          mul_lt_mul_of_pos_right h2 STEP_KM_pos
      _ = E - S := div_mul_cancel₀ _ (ne_of_gt STEP_KM_pos)
  unfold sampleKm
  rw [min_eq_left (le_of_lt hiQ)]
  apply add_lt_add_left
  apply lt_min
  · push_cast
    nlinarith [STEP_KM_pos]
  · exact hiQ

lemma stepCost_nonneg (pts : List SnappedPoint) (S E : ℚ) (i : ℕ) :
    0 ≤ stepCost pts S E i := by
  have h1 : sampleKm S E i ≤ sampleKm S E (i + 1) := sampleKm_mono S E (Nat.le_succ i)
  have hB : (0 : ℚ) ≤ BASE_PX_PER_KM := by norm_num [BASE_PX_PER_KM]
  have hSF : (0 : ℚ) ≤ SLOW_FACTOR := by norm_num [SLOW_FACTOR]
  unfold stepCost
  apply mul_nonneg (mul_nonneg (by linarith) hB)
  split
  · exact hSF
  · norm_num

lemma stepCost_eq_zero_of_nonpos (pts : List SnappedPoint) (S E : ℚ) (hL : E - S ≤ 0)
    (i : ℕ) : stepCost pts S E i = 0 := by
  unfold stepCost
  rw [sampleKm_const_of_nonpos S E hL i, sampleKm_const_of_nonpos S E hL (i + 1)]
  ring_nf

lemma cumPx_mono (pts : List SnappedPoint) (S E : ℚ) {i j : ℕ} (h : i ≤ j) :
    cumPx pts S E i ≤ cumPx pts S E j := by
  induction j with
  | zero =>
    rw [Nat.le_zero.1 h]
  | succ j ih =>
    rcases eq_or_lt_of_le h with heq | hlt
    · rw [heq]
    · have h1 := ih (Nat.lt_succ_iff.1 hlt)
      have h2 := stepCost_nonneg pts S E j
      show cumPx pts S E i ≤ cumPx pts S E j + stepCost pts S E j
      linarith

lemma cumPx_nonneg (pts : List SnappedPoint) (S E : ℚ) (i : ℕ) :
    0 ≤ cumPx pts S E i :=
  cumPx_mono pts S E (Nat.zero_le i)

lemma cumPx_eq_zero_of_nonpos (pts : List SnappedPoint) (S E : ℚ) (hL : E - S ≤ 0) :
    ∀ i, cumPx pts S E i = 0
  | 0 => rfl
  | i + 1 => by
    show cumPx pts S E i + stepCost pts S E i = 0
    rw [cumPx_eq_zero_of_nonpos pts S E hL i, stepCost_eq_zero_of_nonpos pts S E hL i]
    ring

lemma chain'_map_range {r : ℚ → ℚ → Prop} (f : ℕ → ℚ) (n : ℕ) :
    List.Chain' r ((List.range (n + 1)).map f) ↔ ∀ m < n, r (f m) (f (m + 1)) := by
  rw [List.chain'_map]
  exact List.chain'_range_succ (fun a b => r (f a) (f b)) n

/-- C1 (counterexample): for a one-waypoint input the builder emits two
identical distance samples, so `kmSamples` is not strictly increasing. -/
theorem single_point_samples_not_strict :
    (buildScrollMapping [⟨1, "A", "a", 0⟩]).kmSamples = [0, 0] ∧
    ¬ List.Chain' (· < ·) (buildScrollMapping [⟨1, "A", "a", 0⟩]).kmSamples := by
  have hk : (buildScrollMapping [⟨1, "A", "a", 0⟩]).kmSamples = [0, 0] := by
    norm_num [buildScrollMapping, numStepsOf, STEP_KM, startKmOf, endKmOf, sampleKm,
      List.range_succ, List.getLastD]
  refine ⟨hk, ?_⟩
  rw [hk]
  simp

/-- C1 (amended): the two sample arrays always have the same length and
`pxCumulative` is always non-decreasing; `kmSamples` is always
non-decreasing, and strictly increasing exactly as soon as the waypoint
set spans a positive distance (`startKm < endKm`) — a zero-span input
(zero distance between first and last waypoint, e.g. a single waypoint)
repeats one distance value. -/
theorem mapping_arrays_monotone (pts : List SnappedPoint) :
    (buildScrollMapping pts).kmSamples.length =
      (buildScrollMapping pts).pxCumulative.length ∧
    List.Chain' (· ≤ ·) (buildScrollMapping pts).pxCumulative ∧
    List.Chain' (· ≤ ·) (buildScrollMapping pts).kmSamples ∧
    (startKmOf pts < endKmOf pts →
      List.Chain' (· < ·) (buildScrollMapping pts).kmSamples) := by
  cases pts with
  | nil => simp [buildScrollMapping, startKmOf, endKmOf]
  | cons p rest =>
    refine ⟨by simp [build_kmSamples, build_pxCumulative], ?_, ?_, ?_⟩
    · rw [build_pxCumulative, chain'_map_range]
      intro m _
      show cumPx _ _ _ m ≤ cumPx _ _ _ (m + 1)
      exact cumPx_mono _ _ _ (Nat.le_succ m)
    · rw [build_kmSamples, chain'_map_range]
      intro m _
      exact sampleKm_mono _ _ (Nat.le_succ m)
    · intro hlt
      rw [build_kmSamples, chain'_map_range]
      intro m hm
      exact sampleKm_strict _ _ (by linarith) hm

/-- Closed witness for `mapping_arrays_monotone`: a positive-span input
(waypoints at 0 and 0.2 km) has strictly increasing `kmSamples`. -/
theorem mapping_arrays_monotone_witness :
    startKmOf [⟨1, "A", "a", 0⟩, ⟨2, "A", "b", 1/5⟩] <
      endKmOf [⟨1, "A", "a", 0⟩, ⟨2, "A", "b", 1/5⟩] ∧
    List.Chain' (· < ·)
      (buildScrollMapping [⟨1, "A", "a", 0⟩, ⟨2, "A", "b", 1/5⟩]).kmSamples := by
  have hlt : startKmOf [⟨1, "A", "a", 0⟩, ⟨2, "A", "b", 1/5⟩] <
      endKmOf [⟨1, "A", "a", 0⟩, ⟨2, "A", "b", 1/5⟩] := by
    norm_num [startKmOf, endKmOf, List.getLastD]
  exact ⟨hlt, (mapping_arrays_monotone _).2.2.2 hlt⟩

/-- C4 (counterexample): for one waypoint the builder does not return a
single-sample zero-range mapping — it returns two samples and a total
pixel range of half a base unit (50 px). -/
theorem single_point_mapping_not_trivial :
    (buildScrollMapping [⟨1, "A", "a", 0⟩]).kmSamples.length = 2 ∧
    (buildScrollMapping [⟨1, "A", "a", 0⟩]).totalPx = 50 := by
  constructor
  · norm_num [buildScrollMapping, numStepsOf, STEP_KM, startKmOf, endKmOf, List.getLastD]
  · norm_num [buildScrollMapping, numStepsOf, STEP_KM, startKmOf, endKmOf, sampleKm,
      cumPx, stepCost, inSlowZone, BASE_PX_PER_KM, SLOW_FACTOR, POI_WINDOW_KM,
      List.range_succ, List.getLastD]

/-- C4 (amended): zero waypoints give the empty mapping with zero range;
one waypoint gives a degenerate mapping of two identical distance
samples, all-zero cumulative pixels and a total range of half a base
unit, and `scrollPxToKm` resolves every offset through it to the single
waypoint's distance ("always at start"). -/
theorem degenerate_mapping (p : SnappedPoint) :
    buildScrollMapping ([] : List SnappedPoint) = ⟨[], [], 0⟩ ∧
    (buildScrollMapping [p]).kmSamples = [p.distanceAlongPath, p.distanceAlongPath] ∧
    (buildScrollMapping [p]).pxCumulative = [0, 0] ∧
    (buildScrollMapping [p]).totalPx = BASE_PX_PER_KM * (1/2) ∧
    ∀ px : ℚ, scrollPxToKm px (buildScrollMapping [p]) = p.distanceAlongPath := by
  have hN : numStepsOf (startKmOf [p]) (endKmOf [p]) = 1 := by
    simp [numStepsOf, startKmOf, endKmOf, List.getLastD]
  have hL : endKmOf [p] - startKmOf [p] ≤ 0 := by
    simp [startKmOf, endKmOf, List.getLastD]
  have hk : (buildScrollMapping [p]).kmSamples =
      [p.distanceAlongPath, p.distanceAlongPath] := by
    rw [build_kmSamples, hN]
    simp only [List.range_succ, List.range_zero, List.nil_append, List.map_append,
      List.map_cons, List.map_nil]
    rw [sampleKm_const_of_nonpos _ _ hL 0, sampleKm_const_of_nonpos _ _ hL 1]
    simp [endKmOf, List.getLastD]
  have hc : (buildScrollMapping [p]).pxCumulative = [0, 0] := by
    rw [build_pxCumulative, hN]
    simp only [List.range_succ, List.range_zero, List.nil_append, List.map_append,
      List.map_cons, List.map_nil]
    rw [cumPx_eq_zero_of_nonpos _ _ _ hL 0, cumPx_eq_zero_of_nonpos _ _ _ hL 1]
    rfl
  have ht : (buildScrollMapping [p]).totalPx = BASE_PX_PER_KM * (1/2) := by
    rw [build_totalPx, cumPx_eq_zero_of_nonpos _ _ _ hL]
    ring
  refine ⟨rfl, hk, hc, ht, ?_⟩
  intro px
  unfold scrollPxToKm
  rw [hk, hc]
  by_cases hpx : px ≤ 0
  · simp [hpx]
  · have hpx' : (0 : ℚ) ≤ px := by linarith
    simp [hpx, List.getD, hpx']

/-! Binary-search correctness and interpolation analysis. -/

lemma srchAux_spec (c : List ℚ) (px : ℚ) :
    ∀ (fuel lo hi : ℕ), lo < hi → hi - lo ≤ fuel →
      c.getD lo 0 ≤ px → px < c.getD hi 0 →
      lo ≤ (srchAux c px fuel lo hi).1 ∧
      (srchAux c px fuel lo hi).2 ≤ hi ∧
      (srchAux c px fuel lo hi).2 = (srchAux c px fuel lo hi).1 + 1 ∧
      c.getD (srchAux c px fuel lo hi).1 0 ≤ px ∧
      px < c.getD (srchAux c px fuel lo hi).2 0 := by
  intro fuel
  induction fuel with
  | zero =>
    intro lo hi hlh hfuel _ _
    omega
  | succ fuel ih =>
    intro lo hi hlh hfuel hlo hhi
    by_cases hcond : lo + 1 < hi
    · have hmidlo : lo < (lo + hi) / 2 := by omega
      have hmidhi : (lo + hi) / 2 < hi := by omega
      by_cases hc : c.getD ((lo + hi) / 2) 0 ≤ px
      · have hstep : srchAux c px (fuel + 1) lo hi =
            srchAux c px fuel ((lo + hi) / 2) hi := by
          rw [srchAux, if_pos hcond, if_pos hc]
        rw [hstep]
        have h := ih ((lo + hi) / 2) hi hmidhi (by omega) hc hhi
        exact ⟨le_trans (le_of_lt hmidlo) h.1, h.2.1, h.2.2.1, h.2.2.2.1, h.2.2.2.2⟩
      · have hstep : srchAux c px (fuel + 1) lo hi =
            srchAux c px fuel lo ((lo + hi) / 2) := by
          rw [srchAux, if_pos hcond, if_neg hc]
        rw [hstep]
        have h := ih lo ((lo + hi) / 2) hmidlo (by omega) hlo (not_le.1 hc)
        exact ⟨h.1, le_trans h.2.1 (le_of_lt hmidhi), h.2.2.1, h.2.2.2.1, h.2.2.2.2⟩
    · have hstep : srchAux c px (fuel + 1) lo hi = (lo, hi) := by
        rw [srchAux, if_neg hcond]
      rw [hstep]
      exact ⟨le_rfl, le_rfl, by omega, hlo, hhi⟩

lemma le_of_strict_chain {f : ℕ → ℚ} {N : ℕ} (hstrict : ∀ i < N, f i < f (i + 1))
    {i j : ℕ} (hij : i ≤ j) : j ≤ N → f i ≤ f j := by
  induction j, hij using Nat.le_induction with
  | base => exact fun _ => le_rfl
  | succ j hij ih =>
    intro hjN
    have h1 : f i ≤ f j := ih (by omega)
    have h2 : f j < f (j + 1) := hstrict j (by omega)
    linarith

lemma lt_of_strict_chain {f : ℕ → ℚ} {N : ℕ} (hstrict : ∀ i < N, f i < f (i + 1))
    {i j : ℕ} (hij : i < j) (hjN : j ≤ N) : f i < f j := by
  have h1 : f i < f (i + 1) := hstrict i (by omega)
  have h2 : f (i + 1) ≤ f j := le_of_strict_chain hstrict hij hjN
  linarith

lemma bracket_unique {f : ℕ → ℚ} {N : ℕ} (hstrict : ∀ i < N, f i < f (i + 1))
    {a b : ℕ} (ha : a + 1 ≤ N) (hb : b + 1 ≤ N) {x : ℚ}
    (hax : f a ≤ x) (hax2 : x < f (a + 1)) (hbx : f b ≤ x) (hbx2 : x < f (b + 1)) :
    a = b := by
  by_contra hne
  rcases Nat.lt_or_ge a b with h | h
  · have h1 : f (a + 1) ≤ f b := le_of_strict_chain hstrict (by omega) (by omega)
    linarith
  · have hba : b < a := by omega
    have h1 : f (b + 1) ≤ f a := le_of_strict_chain hstrict (by omega) (by omega)
    linarith

lemma stepCost_pos (pts : List SnappedPoint) (S E : ℚ) (hL : 0 < E - S) {i : ℕ}
    (hi : i < numStepsOf S E) : 0 < stepCost pts S E i := by
  have h1 : sampleKm S E i < sampleKm S E (i + 1) := sampleKm_strict S E hL hi
  have hB : (0 : ℚ) < BASE_PX_PER_KM := by norm_num [BASE_PX_PER_KM]
  unfold stepCost
  apply mul_pos (mul_pos (by linarith) hB)
  split
  · norm_num [SLOW_FACTOR]
  · norm_num

lemma cumPx_last_pos (pts : List SnappedPoint) (S E : ℚ) (hL : 0 < E - S) :
    0 < cumPx pts S E (numStepsOf S E) := by
  have hN : 1 ≤ numStepsOf S E := Nat.le_max_right _ _
  have h1 : 0 < cumPx pts S E 1 := by
    have := stepCost_pos pts S E hL (show 0 < numStepsOf S E by omega)
    show 0 < cumPx pts S E 0 + stepCost pts S E 0
    rw [show cumPx pts S E 0 = 0 from rfl]
    linarith
  exact lt_of_lt_of_le h1 (cumPx_mono pts S E hN)

lemma pos_span_of_cumPx_pos (pts : List SnappedPoint) (S E : ℚ)
    (h : 0 < cumPx pts S E (numStepsOf S E)) : 0 < E - S := by
  by_contra hL
  rw [cumPx_eq_zero_of_nonpos pts S E (by linarith [not_lt.1 hL]) _] at h
  exact lt_irrefl 0 h

/-- Case analysis of `scrollPxToKm` over a mapping built from a nonempty
waypoint list: the two clamp branches return the first / last distance
sample, and in the interior the binary search finds the unique cumulative
pixel bracket and interpolates the distance samples linearly. -/
lemma scrollPxToKm_cases (p : SnappedPoint) (rest : List SnappedPoint) (px : ℚ) :
    (px ≤ 0 → scrollPxToKm px (buildScrollMapping (p :: rest)) =
      sampleKm (startKmOf (p :: rest)) (endKmOf (p :: rest)) 0) ∧
    (0 < px →
      cumPx (p :: rest) (startKmOf (p :: rest)) (endKmOf (p :: rest))
        (numStepsOf (startKmOf (p :: rest)) (endKmOf (p :: rest))) ≤ px →
      scrollPxToKm px (buildScrollMapping (p :: rest)) = endKmOf (p :: rest)) ∧
    (0 < px →
      px < cumPx (p :: rest) (startKmOf (p :: rest)) (endKmOf (p :: rest))
        (numStepsOf (startKmOf (p :: rest)) (endKmOf (p :: rest))) →
      0 < endKmOf (p :: rest) - startKmOf (p :: rest) ∧
      ∃ lo, lo + 1 ≤ numStepsOf (startKmOf (p :: rest)) (endKmOf (p :: rest)) ∧
        cumPx (p :: rest) (startKmOf (p :: rest)) (endKmOf (p :: rest)) lo ≤ px ∧
        px < cumPx (p :: rest) (startKmOf (p :: rest)) (endKmOf (p :: rest)) (lo + 1) ∧
        scrollPxToKm px (buildScrollMapping (p :: rest)) =
          sampleKm (startKmOf (p :: rest)) (endKmOf (p :: rest)) lo +
          (px - cumPx (p :: rest) (startKmOf (p :: rest)) (endKmOf (p :: rest)) lo) /
            (cumPx (p :: rest) (startKmOf (p :: rest)) (endKmOf (p :: rest)) (lo + 1) -
              cumPx (p :: rest) (startKmOf (p :: rest)) (endKmOf (p :: rest)) lo) *
          (sampleKm (startKmOf (p :: rest)) (endKmOf (p :: rest)) (lo + 1) -
            sampleKm (startKmOf (p :: rest)) (endKmOf (p :: rest)) lo)) := by
  have hlenk : (buildScrollMapping (p :: rest)).kmSamples.length =
      numStepsOf (startKmOf (p :: rest)) (endKmOf (p :: rest)) + 1 := by
    rw [build_kmSamples]
    simp
  have hlenc : (buildScrollMapping (p :: rest)).pxCumulative.length =
      numStepsOf (startKmOf (p :: rest)) (endKmOf (p :: rest)) + 1 := by
    rw [build_pxCumulative]
    simp
  have hlen0 : ¬ (buildScrollMapping (p :: rest)).kmSamples.length = 0 := by omega
  have hgetk : ∀ i ≤ numStepsOf (startKmOf (p :: rest)) (endKmOf (p :: rest)),
      (buildScrollMapping (p :: rest)).kmSamples.getD i 0 =
        sampleKm (startKmOf (p :: rest)) (endKmOf (p :: rest)) i := by
    intro i hi
    rw [build_kmSamples]
    exact getD_map_range _ (by omega)
  have hgetc : ∀ i ≤ numStepsOf (startKmOf (p :: rest)) (endKmOf (p :: rest)),
      (buildScrollMapping (p :: rest)).pxCumulative.getD i 0 =
        cumPx (p :: rest) (startKmOf (p :: rest)) (endKmOf (p :: rest)) i := by
    intro i hi
    rw [build_pxCumulative]
    exact getD_map_range _ (by omega)
  refine ⟨?_, ?_, ?_⟩
  · intro hpx
    unfold scrollPxToKm
    rw [if_neg hlen0, if_pos hpx]
    exact hgetk 0 (by omega)
  · intro hpx hlast
    unfold scrollPxToKm
    rw [if_neg hlen0, if_neg (by linarith)]
    have hlast' : (buildScrollMapping (p :: rest)).pxCumulative.getD
        ((buildScrollMapping (p :: rest)).pxCumulative.length - 1) 0 ≤ px := by
      rw [hlenc, Nat.add_sub_cancel, hgetc _ le_rfl]
      exact hlast
    rw [if_pos hlast']
    rw [hlenk, Nat.add_sub_cancel, hgetk _ le_rfl, sampleKm_last]
  · intro hpx hlast
    have hL : 0 < endKmOf (p :: rest) - startKmOf (p :: rest) :=
      pos_span_of_cumPx_pos _ _ _ (lt_trans hpx hlast)
    refine ⟨hL, ?_⟩
    have hN1 : 1 ≤ numStepsOf (startKmOf (p :: rest)) (endKmOf (p :: rest)) :=
      Nat.le_max_right _ _
    have hc0 : (buildScrollMapping (p :: rest)).pxCumulative.getD 0 0 = 0 := by
      rw [hgetc 0 (by omega)]
      rfl
    have hcN : (buildScrollMapping (p :: rest)).pxCumulative.getD
        ((buildScrollMapping (p :: rest)).pxCumulative.length - 1) 0 =
        cumPx (p :: rest) (startKmOf (p :: rest)) (endKmOf (p :: rest))
          (numStepsOf (startKmOf (p :: rest)) (endKmOf (p :: rest))) := by
      rw [hlenc, Nat.add_sub_cancel]
      exact hgetc _ le_rfl
    have hsearch := srchAux_spec (buildScrollMapping (p :: rest)).pxCumulative px
      (buildScrollMapping (p :: rest)).pxCumulative.length 0
      ((buildScrollMapping (p :: rest)).pxCumulative.length - 1)
      (by omega) (by omega)
      (by rw [hc0]; linarith)
      (by rw [hcN]; exact hlast)
    set r := srchAux (buildScrollMapping (p :: rest)).pxCumulative px
      (buildScrollMapping (p :: rest)).pxCumulative.length 0
      ((buildScrollMapping (p :: rest)).pxCumulative.length - 1) with hr
    obtain ⟨hr1, hr2, hr3, hr4, hr5⟩ := hsearch
    refine ⟨r.1, by omega, ?_, ?_, ?_⟩
    · rw [← hgetc r.1 (by omega)]
      exact hr4
    · rw [← hgetc (r.1 + 1) (by omega)]
      rw [← hr3]
      exact hr5
    · unfold scrollPxToKm
      rw [if_neg hlen0, if_neg (by linarith)]
      have hnotlast : ¬ (buildScrollMapping (p :: rest)).pxCumulative.getD
          ((buildScrollMapping (p :: rest)).pxCumulative.length - 1) 0 ≤ px := by
        rw [hcN]
        linarith
      rw [if_neg hnotlast]
      rw [← hr]
      rw [hgetc r.1 (by omega), hgetk r.1 (by omega)]
      rw [hr3, hgetc (r.1 + 1) (by omega), hgetk (r.1 + 1) (by omega)]

/-- Case analysis of `kmToPx`, mirroring `scrollPxToKm_cases` with the
roles of the two arrays exchanged. -/
lemma kmToPx_cases (p : SnappedPoint) (rest : List SnappedPoint) (targetKm : ℚ) :
    (targetKm ≤ sampleKm (startKmOf (p :: rest)) (endKmOf (p :: rest)) 0 →
      kmToPx targetKm (buildScrollMapping (p :: rest)) = 0) ∧
    (sampleKm (startKmOf (p :: rest)) (endKmOf (p :: rest)) 0 < targetKm →
      sampleKm (startKmOf (p :: rest)) (endKmOf (p :: rest))
        (numStepsOf (startKmOf (p :: rest)) (endKmOf (p :: rest))) ≤ targetKm →
      kmToPx targetKm (buildScrollMapping (p :: rest)) =
        cumPx (p :: rest) (startKmOf (p :: rest)) (endKmOf (p :: rest))
          (numStepsOf (startKmOf (p :: rest)) (endKmOf (p :: rest)))) ∧
    (sampleKm (startKmOf (p :: rest)) (endKmOf (p :: rest)) 0 < targetKm →
      targetKm < sampleKm (startKmOf (p :: rest)) (endKmOf (p :: rest))
        (numStepsOf (startKmOf (p :: rest)) (endKmOf (p :: rest))) →
      ∃ lo, lo + 1 ≤ numStepsOf (startKmOf (p :: rest)) (endKmOf (p :: rest)) ∧
        sampleKm (startKmOf (p :: rest)) (endKmOf (p :: rest)) lo ≤ targetKm ∧
        targetKm < sampleKm (startKmOf (p :: rest)) (endKmOf (p :: rest)) (lo + 1) ∧
        kmToPx targetKm (buildScrollMapping (p :: rest)) =
          cumPx (p :: rest) (startKmOf (p :: rest)) (endKmOf (p :: rest)) lo +
          (targetKm - sampleKm (startKmOf (p :: rest)) (endKmOf (p :: rest)) lo) /
            (sampleKm (startKmOf (p :: rest)) (endKmOf (p :: rest)) (lo + 1) -
              sampleKm (startKmOf (p :: rest)) (endKmOf (p :: rest)) lo) *
          (cumPx (p :: rest) (startKmOf (p :: rest)) (endKmOf (p :: rest)) (lo + 1) -
            cumPx (p :: rest) (startKmOf (p :: rest)) (endKmOf (p :: rest)) lo)) := by
  have hlenk : (buildScrollMapping (p :: rest)).kmSamples.length =
      numStepsOf (startKmOf (p :: rest)) (endKmOf (p :: rest)) + 1 := by
    rw [build_kmSamples]
    simp
  have hlen0 : ¬ (buildScrollMapping (p :: rest)).kmSamples.length = 0 := by omega
  have hgetk : ∀ i ≤ numStepsOf (startKmOf (p :: rest)) (endKmOf (p :: rest)),
      (buildScrollMapping (p :: rest)).kmSamples.getD i 0 =
        sampleKm (startKmOf (p :: rest)) (endKmOf (p :: rest)) i := by
    intro i hi
    rw [build_kmSamples]
    exact getD_map_range _ (by omega)
  have hgetc : ∀ i ≤ numStepsOf (startKmOf (p :: rest)) (endKmOf (p :: rest)),
      (buildScrollMapping (p :: rest)).pxCumulative.getD i 0 =
        cumPx (p :: rest) (startKmOf (p :: rest)) (endKmOf (p :: rest)) i := by
    intro i hi
    rw [build_pxCumulative]
    exact getD_map_range _ (by omega)
  have hkN : (buildScrollMapping (p :: rest)).kmSamples.getD
      ((buildScrollMapping (p :: rest)).kmSamples.length - 1) 0 =
      sampleKm (startKmOf (p :: rest)) (endKmOf (p :: rest))
        (numStepsOf (startKmOf (p :: rest)) (endKmOf (p :: rest))) := by
    rw [hlenk, Nat.add_sub_cancel]
    exact hgetk _ le_rfl
  refine ⟨?_, ?_, ?_⟩
  · intro ht
    unfold kmToPx
    rw [if_neg hlen0, if_pos (by rw [hgetk 0 (by omega)]; exact ht)]
    rw [hgetc 0 (by omega)]
    rfl
  · intro ht1 ht2
    unfold kmToPx
    rw [if_neg hlen0, if_neg (by rw [hgetk 0 (by omega)]; linarith)]
    rw [if_pos (by rw [hkN]; exact ht2)]
    rw [hlenk, Nat.add_sub_cancel]
    exact hgetc _ le_rfl
  · intro ht1 ht2
    have hN1 : 1 ≤ numStepsOf (startKmOf (p :: rest)) (endKmOf (p :: rest)) :=
      Nat.le_max_right _ _
    have hsearch := srchAux_spec (buildScrollMapping (p :: rest)).kmSamples targetKm
      (buildScrollMapping (p :: rest)).kmSamples.length 0
      ((buildScrollMapping (p :: rest)).kmSamples.length - 1)
      (by omega) (by omega)
      (by rw [hgetk 0 (by omega)]; linarith)
      (by rw [hkN]; exact ht2)
    set r := srchAux (buildScrollMapping (p :: rest)).kmSamples targetKm
      (buildScrollMapping (p :: rest)).kmSamples.length 0
      ((buildScrollMapping (p :: rest)).kmSamples.length - 1) with hr
    obtain ⟨hr1, hr2, hr3, hr4, hr5⟩ := hsearch
    refine ⟨r.1, by omega, ?_, ?_, ?_⟩
    · rw [← hgetk r.1 (by omega)]
      exact hr4
    · rw [← hgetk (r.1 + 1) (by omega), ← hr3]
      exact hr5
    · unfold kmToPx
      rw [if_neg hlen0, if_neg (by rw [hgetk 0 (by omega)]; linarith)]
      rw [if_neg (by rw [hkN]; linarith)]
      rw [← hr]
      rw [hgetc r.1 (by omega), hgetk r.1 (by omega)]
      rw [hr3, hgetc (r.1 + 1) (by omega), hgetk (r.1 + 1) (by omega)]

/-- The last cumulative pixel sample of a mapping built from a nonempty
list is `cumPx` at `numSteps`. -/
lemma lastPx_eq (p : SnappedPoint) (rest : List SnappedPoint) :
    (buildScrollMapping (p :: rest)).pxCumulative.getD
      ((buildScrollMapping (p :: rest)).pxCumulative.length - 1) 0 =
    cumPx (p :: rest) (startKmOf (p :: rest)) (endKmOf (p :: rest))
      (numStepsOf (startKmOf (p :: rest)) (endKmOf (p :: rest))) := by
  have hlenc : (buildScrollMapping (p :: rest)).pxCumulative.length =
      numStepsOf (startKmOf (p :: rest)) (endKmOf (p :: rest)) + 1 := by
    rw [build_pxCumulative]
    simp
  rw [hlenc, Nat.add_sub_cancel, build_pxCumulative]
  exact getD_map_range _ (by omega)

/-- C2 (amended): for every offset in `[0, totalPx]`, converting to a
distance with `scrollPxToKm` and back with `kmToPx` recovers the offset
exactly as long as the offset does not exceed the last cumulative pixel
sample; in the tail region beyond it the re-derived pixel is pinned to
that last sample, so the deviation is bounded by the tail padding of half
a base pixel unit (50 px) — which can exceed one interpolation step's
pixel cost. -/
theorem roundtrip_exact_or_tail (pts : List SnappedPoint) (px : ℚ)
    (h0 : 0 ≤ px) (h1 : px ≤ (buildScrollMapping pts).totalPx) :
    |kmToPx (scrollPxToKm px (buildScrollMapping pts)) (buildScrollMapping pts) - px| ≤
      BASE_PX_PER_KM * (1/2) ∧
    (px ≤ (buildScrollMapping pts).pxCumulative.getD
        ((buildScrollMapping pts).pxCumulative.length - 1) 0 →
      kmToPx (scrollPxToKm px (buildScrollMapping pts)) (buildScrollMapping pts) = px) := by
  cases pts with
  | nil =>
    have hz : buildScrollMapping ([] : List SnappedPoint) = ⟨[], [], 0⟩ := rfl
    have hpx0 : px = 0 := le_antisymm (by rw [hz] at h1; exact h1) h0
    subst hpx0
    rw [hz]
    constructor
    · show |kmToPx (scrollPxToKm 0 ⟨[], [], 0⟩) ⟨[], [], 0⟩ - 0| ≤ BASE_PX_PER_KM * (1/2)
      norm_num [scrollPxToKm, kmToPx, BASE_PX_PER_KM]
    · intro _
      norm_num [scrollPxToKm, kmToPx]
  | cons p rest =>
    have hfwd := scrollPxToKm_cases p rest px
    rw [build_totalPx] at h1
    rcases le_or_lt px 0 with hpx | hpx
    · -- offset 0: both clamps hit the first sample exactly
      have hpx0 : px = 0 := le_antisymm hpx h0
      have hres := hfwd.1 hpx
      rw [hres]
      have hback := (kmToPx_cases p rest
        (sampleKm (startKmOf (p :: rest)) (endKmOf (p :: rest)) 0)).1 le_rfl
      rw [hback, hpx0]
      refine ⟨by norm_num [BASE_PX_PER_KM], fun _ => rfl⟩
    · rcases lt_or_le px (cumPx (p :: rest) (startKmOf (p :: rest)) (endKmOf (p :: rest))
          (numStepsOf (startKmOf (p :: rest)) (endKmOf (p :: rest)))) with hin | htail
      · -- interior: the round trip is exact
        obtain ⟨hL, lo, hlo1, hc1, hc2, heq⟩ := hfwd.2.2 hpx hin
        have hstrict : ∀ i < numStepsOf (startKmOf (p :: rest)) (endKmOf (p :: rest)),
            sampleKm (startKmOf (p :: rest)) (endKmOf (p :: rest)) i <
              sampleKm (startKmOf (p :: rest)) (endKmOf (p :: rest)) (i + 1) :=
          fun i hi => sampleKm_strict _ _ hL hi
        have hΔc : 0 < cumPx (p :: rest) (startKmOf (p :: rest)) (endKmOf (p :: rest)) (lo + 1) -
            cumPx (p :: rest) (startKmOf (p :: rest)) (endKmOf (p :: rest)) lo := by
          linarith
        have hΔk : 0 < sampleKm (startKmOf (p :: rest)) (endKmOf (p :: rest)) (lo + 1) -
            sampleKm (startKmOf (p :: rest)) (endKmOf (p :: rest)) lo := by
          have := hstrict lo (by omega)
          linarith
        have ht0 : 0 ≤ (px - cumPx (p :: rest) (startKmOf (p :: rest)) (endKmOf (p :: rest)) lo) /
            (cumPx (p :: rest) (startKmOf (p :: rest)) (endKmOf (p :: rest)) (lo + 1) -
              cumPx (p :: rest) (startKmOf (p :: rest)) (endKmOf (p :: rest)) lo) :=
          div_nonneg (by linarith) (le_of_lt hΔc)
        have ht1 : (px - cumPx (p :: rest) (startKmOf (p :: rest)) (endKmOf (p :: rest)) lo) /
            (cumPx (p :: rest) (startKmOf (p :: rest)) (endKmOf (p :: rest)) (lo + 1) -
              cumPx (p :: rest) (startKmOf (p :: rest)) (endKmOf (p :: rest)) lo) < 1 :=
          (div_lt_one hΔc).2 (by linarith)
        set t := (px - cumPx (p :: rest) (startKmOf (p :: rest)) (endKmOf (p :: rest)) lo) /
            (cumPx (p :: rest) (startKmOf (p :: rest)) (endKmOf (p :: rest)) (lo + 1) -
              cumPx (p :: rest) (startKmOf (p :: rest)) (endKmOf (p :: rest)) lo) with htdef
        set km := scrollPxToKm px (buildScrollMapping (p :: rest)) with hkmdef
        have hkm : km = sampleKm (startKmOf (p :: rest)) (endKmOf (p :: rest)) lo +
            t * (sampleKm (startKmOf (p :: rest)) (endKmOf (p :: rest)) (lo + 1) -
              sampleKm (startKmOf (p :: rest)) (endKmOf (p :: rest)) lo) := heq
        have hkm_lo : sampleKm (startKmOf (p :: rest)) (endKmOf (p :: rest)) lo ≤ km := by
          rw [hkm]
          nlinarith
        have hkm_hi : km < sampleKm (startKmOf (p :: rest)) (endKmOf (p :: rest)) (lo + 1) := by
          rw [hkm]
          nlinarith
        have hk0_lt : sampleKm (startKmOf (p :: rest)) (endKmOf (p :: rest)) 0 < km := by
          rcases Nat.eq_zero_or_pos lo with hlo0 | hlo0
          · have hC0 : cumPx (p :: rest) (startKmOf (p :: rest)) (endKmOf (p :: rest)) lo = 0 := by
              rw [hlo0]
              rfl
            have htpos : 0 < t := div_pos (by linarith) hΔc
            have hK0 : sampleKm (startKmOf (p :: rest)) (endKmOf (p :: rest)) 0 =
                sampleKm (startKmOf (p :: rest)) (endKmOf (p :: rest)) lo := by
              rw [hlo0]
            rw [hK0, hkm]
            nlinarith
          · have : sampleKm (startKmOf (p :: rest)) (endKmOf (p :: rest)) 0 <
                sampleKm (startKmOf (p :: rest)) (endKmOf (p :: rest)) lo :=
              lt_of_strict_chain hstrict hlo0 (by omega)
            linarith
        have hkN_gt : km < sampleKm (startKmOf (p :: rest)) (endKmOf (p :: rest))
            (numStepsOf (startKmOf (p :: rest)) (endKmOf (p :: rest))) := by
          have : sampleKm (startKmOf (p :: rest)) (endKmOf (p :: rest)) (lo + 1) ≤
              sampleKm (startKmOf (p :: rest)) (endKmOf (p :: rest))
                (numStepsOf (startKmOf (p :: rest)) (endKmOf (p :: rest))) :=
            le_of_strict_chain hstrict hlo1 le_rfl
          linarith
        obtain ⟨lo', hlo1', hb1, hb2, heq'⟩ := (kmToPx_cases p rest km).2.2 hk0_lt hkN_gt
        have hlo'eq : lo' = lo :=
          bracket_unique hstrict hlo1' hlo1 hb1 hb2 hkm_lo hkm_hi
        rw [hlo'eq] at heq'
        have hfrac : (km - sampleKm (startKmOf (p :: rest)) (endKmOf (p :: rest)) lo) /
            (sampleKm (startKmOf (p :: rest)) (endKmOf (p :: rest)) (lo + 1) -
              sampleKm (startKmOf (p :: rest)) (endKmOf (p :: rest)) lo) = t := by
          rw [hkm]
          field_simp
        rw [heq', hfrac, htdef]
        have hresult : cumPx (p :: rest) (startKmOf (p :: rest)) (endKmOf (p :: rest)) lo +
            (px - cumPx (p :: rest) (startKmOf (p :: rest)) (endKmOf (p :: rest)) lo) /
              (cumPx (p :: rest) (startKmOf (p :: rest)) (endKmOf (p :: rest)) (lo + 1) -
                cumPx (p :: rest) (startKmOf (p :: rest)) (endKmOf (p :: rest)) lo) *
            (cumPx (p :: rest) (startKmOf (p :: rest)) (endKmOf (p :: rest)) (lo + 1) -
              cumPx (p :: rest) (startKmOf (p :: rest)) (endKmOf (p :: rest)) lo) = px := by
          field_simp
        rw [hresult]
        refine ⟨by norm_num [BASE_PX_PER_KM], fun _ => rfl⟩
      · -- tail region: the result is pinned to the last cumulative sample
        have hres := hfwd.2.1 hpx htail
        rw [hres]
        rcases lt_or_le 0 (endKmOf (p :: rest) - startKmOf (p :: rest)) with hL | hL
        · have hk0 : sampleKm (startKmOf (p :: rest)) (endKmOf (p :: rest)) 0 =
              startKmOf (p :: rest) := sampleKm_zero _ _ (by linarith)
          have hback := (kmToPx_cases p rest (endKmOf (p :: rest))).2.1
            (by rw [hk0]; linarith) (by rw [sampleKm_last])
          rw [hback]
          constructor
          · rw [abs_le]
            constructor <;> linarith
          · intro hle
            rw [lastPx_eq] at hle
            have : px = cumPx (p :: rest) (startKmOf (p :: rest)) (endKmOf (p :: rest))
                (numStepsOf (startKmOf (p :: rest)) (endKmOf (p :: rest))) :=
              le_antisymm hle htail
            rw [this]
        · have hCzero := cumPx_eq_zero_of_nonpos (p :: rest) (startKmOf (p :: rest))
            (endKmOf (p :: rest)) hL
          have hk0 : sampleKm (startKmOf (p :: rest)) (endKmOf (p :: rest)) 0 =
              endKmOf (p :: rest) := sampleKm_const_of_nonpos _ _ hL 0
          have hback := (kmToPx_cases p rest (endKmOf (p :: rest))).1 (by rw [hk0])
          rw [hback]
          constructor
          · rw [hCzero] at h1
            rw [abs_le]
            constructor <;> linarith
          · intro hle
            rw [lastPx_eq, hCzero] at hle
            linarith

/-- The pixel cost of each interpolation step of a mapping: the
consecutive differences of `pxCumulative`. -/
def stepPxCosts (m : ScrollMapping) : List ℚ :=
  (List.range (m.pxCumulative.length - 1)).map
    (fun i => m.pxCumulative.getD (i + 1) 0 - m.pxCumulative.getD i 0)

/-- C2 (counterexample): for waypoints at 0 and 0.2 km the mapping is
`kmSamples = [0, 0.2]`, `pxCumulative = [0, 40]`, `totalPx = 90`; every
interpolation step costs 40 px, yet the round trip at the in-range offset
`px = 90` returns 40, an error of 50 px — more than one step's pixel
cost. -/
theorem roundtrip_tail_error_exceeds_step :
    (0 : ℚ) ≤ 90 ∧
    (buildScrollMapping [⟨1, "A", "a", 0⟩, ⟨2, "A", "b", 1/5⟩]).totalPx = 90 ∧
    stepPxCosts (buildScrollMapping [⟨1, "A", "a", 0⟩, ⟨2, "A", "b", 1/5⟩]) = [40] ∧
    kmToPx (scrollPxToKm 90 (buildScrollMapping [⟨1, "A", "a", 0⟩, ⟨2, "A", "b", 1/5⟩]))
      (buildScrollMapping [⟨1, "A", "a", 0⟩, ⟨2, "A", "b", 1/5⟩]) = 40 ∧
    ¬ (|kmToPx (scrollPxToKm 90 (buildScrollMapping [⟨1, "A", "a", 0⟩, ⟨2, "A", "b", 1/5⟩]))
        (buildScrollMapping [⟨1, "A", "a", 0⟩, ⟨2, "A", "b", 1/5⟩]) - 90| ≤ 40) := by
  have hm : buildScrollMapping [⟨1, "A", "a", 0⟩, ⟨2, "A", "b", 1/5⟩] =
      ⟨[0, 1/5], [0, 40], 90⟩ := by
    norm_num [buildScrollMapping, numStepsOf, STEP_KM, startKmOf, endKmOf, sampleKm,
      cumPx, stepCost, inSlowZone, BASE_PX_PER_KM, SLOW_FACTOR, POI_WINDOW_KM,
      List.range_succ, List.getLastD, abs]
  have hrt : kmToPx (scrollPxToKm 90 (buildScrollMapping [⟨1, "A", "a", 0⟩, ⟨2, "A", "b", 1/5⟩]))
      (buildScrollMapping [⟨1, "A", "a", 0⟩, ⟨2, "A", "b", 1/5⟩]) = 40 := by
    rw [hm]
    norm_num [scrollPxToKm, kmToPx, List.getD]
  refine ⟨by norm_num, by rw [hm], ?_, hrt, ?_⟩
  · rw [hm]
    norm_num [stepPxCosts, List.range_succ, List.getD]
  · rw [hrt]
    norm_num

/-- Closed witness for `roundtrip_exact_or_tail`: at the in-range offset
20 on the same two-waypoint mapping the round trip is exact. -/
theorem roundtrip_exact_or_tail_witness :
    |kmToPx (scrollPxToKm 20 (buildScrollMapping [⟨1, "A", "a", 0⟩, ⟨2, "A", "b", 1/5⟩]))
      (buildScrollMapping [⟨1, "A", "a", 0⟩, ⟨2, "A", "b", 1/5⟩]) - 20| ≤
      BASE_PX_PER_KM * (1/2) ∧
    kmToPx (scrollPxToKm 20 (buildScrollMapping [⟨1, "A", "a", 0⟩, ⟨2, "A", "b", 1/5⟩]))
      (buildScrollMapping [⟨1, "A", "a", 0⟩, ⟨2, "A", "b", 1/5⟩]) = 20 := by
  have hm : buildScrollMapping [⟨1, "A", "a", 0⟩, ⟨2, "A", "b", 1/5⟩] =
      ⟨[0, 1/5], [0, 40], 90⟩ := by
    norm_num [buildScrollMapping, numStepsOf, STEP_KM, startKmOf, endKmOf, sampleKm,
      cumPx, stepCost, inSlowZone, BASE_PX_PER_KM, SLOW_FACTOR, POI_WINDOW_KM,
      List.range_succ, List.getLastD, abs]
  have h := roundtrip_exact_or_tail [⟨1, "A", "a", 0⟩, ⟨2, "A", "b", 1/5⟩] 20
    (by norm_num) (by rw [hm]; norm_num)
  refine ⟨h.1, h.2 ?_⟩
  rw [hm]
  norm_num [List.getD]

lemma getLastD_mem_cons : ∀ (l : List SnappedPoint) (a : SnappedPoint),
    l.getLastD a ∈ a :: l
  | [], a => by simp [List.getLastD]
  | b :: l, a => by
    rw [List.getLastD_cons]
    have := getLastD_mem_cons l b
    simp only [List.mem_cons] at this ⊢
    tauto

lemma start_le_end_of_sorted (p : SnappedPoint) (rest : List SnappedPoint)
    (hsorted : List.Sorted (fun a b : SnappedPoint =>
      a.distanceAlongPath ≤ b.distanceAlongPath) (p :: rest)) :
    startKmOf (p :: rest) ≤ endKmOf (p :: rest) := by
  have hmem := getLastD_mem_cons rest p
  rcases List.mem_cons.1 hmem with heq | hmem'
  · show p.distanceAlongPath ≤ (rest.getLastD p).distanceAlongPath
    rw [heq]
  · exact (List.sorted_cons.1 hsorted).1 _ hmem'

/-- C10: for a mapping built from at least two (distance-ordered)
waypoints, the total range is the last cumulative sample plus half a base
pixel unit; every offset at or beyond the last cumulative sample resolves
to exactly the last waypoint's distance; no offset ever resolves beyond
it; and every offset ≤ 0 resolves to the first waypoint's distance. -/
theorem tail_resolves_to_last (pts : List SnappedPoint) (h2 : 2 ≤ pts.length)
    (hsorted : List.Sorted (fun a b : SnappedPoint =>
      a.distanceAlongPath ≤ b.distanceAlongPath) pts) :
    (buildScrollMapping pts).totalPx =
      (buildScrollMapping pts).pxCumulative.getD
        ((buildScrollMapping pts).pxCumulative.length - 1) 0 + BASE_PX_PER_KM * (1/2) ∧
    (∀ px, (buildScrollMapping pts).pxCumulative.getD
        ((buildScrollMapping pts).pxCumulative.length - 1) 0 ≤ px →
      scrollPxToKm px (buildScrollMapping pts) = endKmOf pts) ∧
    (∀ px, scrollPxToKm px (buildScrollMapping pts) ≤ endKmOf pts) ∧
    (∀ px, px ≤ 0 → scrollPxToKm px (buildScrollMapping pts) = startKmOf pts) := by
  cases pts with
  | nil => simp at h2
  | cons p rest =>
    have hse : startKmOf (p :: rest) ≤ endKmOf (p :: rest) :=
      start_le_end_of_sorted p rest hsorted
    refine ⟨by rw [build_totalPx, lastPx_eq], ?_, ?_, ?_⟩
    · intro px hpx
      rw [lastPx_eq] at hpx
      rcases le_or_lt px 0 with hpx0 | hpx0
      · have hCN0 : cumPx (p :: rest) (startKmOf (p :: rest)) (endKmOf (p :: rest))
            (numStepsOf (startKmOf (p :: rest)) (endKmOf (p :: rest))) = 0 :=
          le_antisymm (by linarith) (cumPx_nonneg _ _ _ _)
        have hL : endKmOf (p :: rest) - startKmOf (p :: rest) ≤ 0 := by
          by_contra hL
          have := cumPx_last_pos (p :: rest) (startKmOf (p :: rest)) (endKmOf (p :: rest))
            (by linarith)
          linarith
        rw [(scrollPxToKm_cases p rest px).1 hpx0]
        exact sampleKm_const_of_nonpos _ _ hL 0
      · exact (scrollPxToKm_cases p rest px).2.1 hpx0 hpx
    · intro px
      rcases le_or_lt px 0 with hpx0 | hpx0
      · rw [(scrollPxToKm_cases p rest px).1 hpx0]
        calc sampleKm (startKmOf (p :: rest)) (endKmOf (p :: rest)) 0
            ≤ sampleKm (startKmOf (p :: rest)) (endKmOf (p :: rest))
              (numStepsOf (startKmOf (p :: rest)) (endKmOf (p :: rest))) :=
              sampleKm_mono _ _ (Nat.zero_le _)
          _ = endKmOf (p :: rest) := sampleKm_last _ _
      · rcases le_or_lt (cumPx (p :: rest) (startKmOf (p :: rest)) (endKmOf (p :: rest))
            (numStepsOf (startKmOf (p :: rest)) (endKmOf (p :: rest)))) px with htail | hin
        · rw [(scrollPxToKm_cases p rest px).2.1 hpx0 htail]
        · obtain ⟨hL, lo, hlo1, hc1, hc2, heq⟩ := (scrollPxToKm_cases p rest px).2.2 hpx0 hin
          have hstrict : ∀ i < numStepsOf (startKmOf (p :: rest)) (endKmOf (p :: rest)),
              sampleKm (startKmOf (p :: rest)) (endKmOf (p :: rest)) i <
                sampleKm (startKmOf (p :: rest)) (endKmOf (p :: rest)) (i + 1) :=
            fun i hi => sampleKm_strict _ _ hL hi
          have hΔc : 0 < cumPx (p :: rest) (startKmOf (p :: rest)) (endKmOf (p :: rest)) (lo + 1) -
              cumPx (p :: rest) (startKmOf (p :: rest)) (endKmOf (p :: rest)) lo := by
            linarith
          have hΔk : 0 < sampleKm (startKmOf (p :: rest)) (endKmOf (p :: rest)) (lo + 1) -
              sampleKm (startKmOf (p :: rest)) (endKmOf (p :: rest)) lo := by
            have := hstrict lo (by omega)
            linarith
          have ht1 : (px - cumPx (p :: rest) (startKmOf (p :: rest)) (endKmOf (p :: rest)) lo) /
              (cumPx (p :: rest) (startKmOf (p :: rest)) (endKmOf (p :: rest)) (lo + 1) -
                cumPx (p :: rest) (startKmOf (p :: rest)) (endKmOf (p :: rest)) lo) < 1 :=
            (div_lt_one hΔc).2 (by linarith)
          have hend : sampleKm (startKmOf (p :: rest)) (endKmOf (p :: rest)) (lo + 1) ≤
              endKmOf (p :: rest) := by
            have ha := le_of_strict_chain hstrict hlo1 le_rfl
            have hb := sampleKm_last (startKmOf (p :: rest)) (endKmOf (p :: rest))
            linarith
          rw [heq]
          nlinarith
    · intro px hpx0
      rw [(scrollPxToKm_cases p rest px).1 hpx0]
      exact sampleKm_zero _ _ hse

/-- Closed witness for `tail_resolves_to_last` on the two-waypoint
mapping: an offset at `totalPx` resolves to the last distance, a negative
offset to the first. -/
theorem tail_resolves_to_last_witness :
    scrollPxToKm 90 (buildScrollMapping [⟨1, "A", "a", 0⟩, ⟨2, "A", "b", 1/5⟩]) =
      endKmOf [⟨1, "A", "a", 0⟩, ⟨2, "A", "b", 1/5⟩] ∧
    scrollPxToKm 20 (buildScrollMapping [⟨1, "A", "a", 0⟩, ⟨2, "A", "b", 1/5⟩]) ≤
      endKmOf [⟨1, "A", "a", 0⟩, ⟨2, "A", "b", 1/5⟩] ∧
    scrollPxToKm (-3) (buildScrollMapping [⟨1, "A", "a", 0⟩, ⟨2, "A", "b", 1/5⟩]) =
      startKmOf [⟨1, "A", "a", 0⟩, ⟨2, "A", "b", 1/5⟩] := by
  have hm : buildScrollMapping [⟨1, "A", "a", 0⟩, ⟨2, "A", "b", 1/5⟩] =
      ⟨[0, 1/5], [0, 40], 90⟩ := by
    norm_num [buildScrollMapping, numStepsOf, STEP_KM, startKmOf, endKmOf, sampleKm,
      cumPx, stepCost, inSlowZone, BASE_PX_PER_KM, SLOW_FACTOR, POI_WINDOW_KM,
      List.range_succ, List.getLastD, abs]
  have h := tail_resolves_to_last [⟨1, "A", "a", 0⟩, ⟨2, "A", "b", 1/5⟩]
    (by norm_num)
    (by norm_num [List.sorted_cons])
  refine ⟨h.2.1 90 ?_, h.2.2.1 20, h.2.2.2 (-3) (by norm_num)⟩
  rw [hm]
  norm_num [List.getD]

/-! Section-range lemmas. -/

lemma sectionRangesAux_nil (acc : List SectionRange) :
    sectionRangesAux acc [] = acc.reverse := rfl

lemma sectionRangesAux_cons (acc : List SectionRange) (sp : SnappedPoint)
    (rest : List SnappedPoint) :
    sectionRangesAux acc (sp :: rest) =
      if sp.sectionName = "" then sectionRangesAux acc rest
      else
        match acc with
        | r :: tail =>
          if r.sectionName = sp.sectionName then
            sectionRangesAux
              ({ r with maxKm := sp.distanceAlongPath + POI_WINDOW_KM } :: tail) rest
          else
            sectionRangesAux
              (⟨sp.sectionName, sp.distanceAlongPath - POI_WINDOW_KM,
                sp.distanceAlongPath + POI_WINDOW_KM⟩ :: r :: tail) rest
        | [] =>
          sectionRangesAux
            [⟨sp.sectionName, sp.distanceAlongPath - POI_WINDOW_KM,
              sp.distanceAlongPath + POI_WINDOW_KM⟩] rest := rfl

lemma sectionRangesAux_skip (acc : List SectionRange) (sp : SnappedPoint)
    (rest : List SnappedPoint) (h : sp.sectionName = "") :
    sectionRangesAux acc (sp :: rest) = sectionRangesAux acc rest := by
  rw [sectionRangesAux_cons, if_pos h]

lemma sectionRangesAux_new_nil (sp : SnappedPoint) (rest : List SnappedPoint)
    (h : ¬ sp.sectionName = "") :
    sectionRangesAux [] (sp :: rest) =
      sectionRangesAux [⟨sp.sectionName, sp.distanceAlongPath - POI_WINDOW_KM,
        sp.distanceAlongPath + POI_WINDOW_KM⟩] rest := by
  rw [sectionRangesAux_cons, if_neg h]

lemma sectionRangesAux_extend (r : SectionRange) (tail : List SectionRange)
    (sp : SnappedPoint) (rest : List SnappedPoint) (h : ¬ sp.sectionName = "")
    (hs : r.sectionName = sp.sectionName) :
    sectionRangesAux (r :: tail) (sp :: rest) =
      sectionRangesAux
        ({ r with maxKm := sp.distanceAlongPath + POI_WINDOW_KM } :: tail) rest := by
  rw [sectionRangesAux_cons, if_neg h]
  show (if r.sectionName = sp.sectionName then
      sectionRangesAux
        ({ r with maxKm := sp.distanceAlongPath + POI_WINDOW_KM } :: tail) rest
    else
      sectionRangesAux
        (⟨sp.sectionName, sp.distanceAlongPath - POI_WINDOW_KM,
          sp.distanceAlongPath + POI_WINDOW_KM⟩ :: r :: tail) rest) = _
  rw [if_pos hs]

lemma sectionRangesAux_new (r : SectionRange) (tail : List SectionRange)
    (sp : SnappedPoint) (rest : List SnappedPoint) (h : ¬ sp.sectionName = "")
    (hs : ¬ r.sectionName = sp.sectionName) :
    sectionRangesAux (r :: tail) (sp :: rest) =
      sectionRangesAux
        (⟨sp.sectionName, sp.distanceAlongPath - POI_WINDOW_KM,
          sp.distanceAlongPath + POI_WINDOW_KM⟩ :: r :: tail) rest := by
  rw [sectionRangesAux_cons, if_neg h]
  show (if r.sectionName = sp.sectionName then
      sectionRangesAux
        ({ r with maxKm := sp.distanceAlongPath + POI_WINDOW_KM } :: tail) rest
    else
      sectionRangesAux
        (⟨sp.sectionName, sp.distanceAlongPath - POI_WINDOW_KM,
          sp.distanceAlongPath + POI_WINDOW_KM⟩ :: r :: tail) rest) = _
  rw [if_neg hs]

/-- Ordering relation maintained between a newer range (built later) and
every older one: maxima grow, and distinct-name ranges are separated. -/
def rangesRel (newer older : SectionRange) : Prop :=
  older.maxKm ≤ newer.maxKm ∧
  (older.sectionName ≠ newer.sectionName → older.maxKm < newer.minKm)

/-- Invariant of the `sectionRanges` fold: every accumulated range's upper
end comes from an already-consumed eligible waypoint of its own section
(at distance at most `dLast`), and the accumulator is pairwise ordered by
`rangesRel` (newest first). -/
def rangesInv (allPts : List SnappedPoint) (acc : List SectionRange) (dLast : ℚ) : Prop :=
  (∀ r ∈ acc, ∃ q ∈ allPts, q.sectionName ≠ "" ∧ q.sectionName = r.sectionName ∧
    r.maxKm = q.distanceAlongPath + POI_WINDOW_KM ∧ q.distanceAlongPath ≤ dLast) ∧
  List.Pairwise rangesRel acc

lemma sectionRangesAux_pairwise (allPts : List SnappedPoint)
    (hsep : ∀ p ∈ allPts, ∀ q ∈ allPts, p.sectionName ≠ "" → q.sectionName ≠ "" →
      p.sectionName ≠ q.sectionName →
      2 * POI_WINDOW_KM < |p.distanceAlongPath - q.distanceAlongPath|) :
    ∀ (rem : List SnappedPoint) (acc : List SectionRange) (dLast : ℚ),
      (∀ x ∈ rem, x ∈ allPts) →
      List.Sorted (fun a b : SnappedPoint =>
        a.distanceAlongPath ≤ b.distanceAlongPath) rem →
      (∀ x ∈ rem, dLast ≤ x.distanceAlongPath) →
      rangesInv allPts acc dLast →
      List.Pairwise (fun a b => rangesRel b a) (sectionRangesAux acc rem) := by
  intro rem
  induction rem with
  | nil =>
    intro acc dLast _ _ _ hinv
    rw [sectionRangesAux_nil]
    exact List.pairwise_reverse.2 hinv.2
  | cons sp rest ih =>
    intro acc dLast hsub hsorted hdlast hinv
    have hsub' : ∀ x ∈ rest, x ∈ allPts := fun x hx => hsub x (List.mem_cons_of_mem _ hx)
    have hsorted' := (List.sorted_cons.1 hsorted).2
    have hrest_ge : ∀ x ∈ rest, sp.distanceAlongPath ≤ x.distanceAlongPath :=
      (List.sorted_cons.1 hsorted).1
    have hdsp : dLast ≤ sp.distanceAlongPath := hdlast sp (List.mem_cons_self _ _)
    by_cases hname : sp.sectionName = ""
    · rw [sectionRangesAux_skip _ _ _ hname]
      exact ih acc dLast hsub' hsorted'
        (fun x hx => hdlast x (List.mem_cons_of_mem _ hx)) hinv
    · cases acc with
      | nil =>
        rw [sectionRangesAux_new_nil _ _ hname]
        apply ih _ sp.distanceAlongPath hsub' hsorted' hrest_ge
        constructor
        · intro r hr
          rw [List.mem_singleton] at hr
          subst hr
          exact ⟨sp, hsub sp (List.mem_cons_self _ _), hname, rfl, rfl, le_rfl⟩
        · exact List.pairwise_singleton _ _
      | cons r tail =>
        obtain ⟨hprov, hpw⟩ := hinv
        by_cases hsame : r.sectionName = sp.sectionName
        · rw [sectionRangesAux_extend _ _ _ _ hname hsame]
          apply ih _ sp.distanceAlongPath hsub' hsorted' hrest_ge
          constructor
          · intro r' hr'
            rcases List.mem_cons.1 hr' with heq | htail
            · subst heq
              exact ⟨sp, hsub sp (List.mem_cons_self _ _), hname, hsame.symm, rfl, le_rfl⟩
            · obtain ⟨q, hq, hq1, hq2, hq3, hq4⟩ := hprov r' (List.mem_cons_of_mem _ htail)
              exact ⟨q, hq, hq1, hq2, hq3, by linarith⟩
          · rw [List.pairwise_cons] at hpw ⊢
            obtain ⟨hr_rel, htail_pw⟩ := hpw
            refine ⟨?_, htail_pw⟩
            intro o ho
            obtain ⟨homax, honame⟩ := hr_rel o ho
            obtain ⟨q, hq, hq1, hq2, hq3, hq4⟩ := hprov r (List.mem_cons_self _ _)
            constructor
            · show o.maxKm ≤ sp.distanceAlongPath + POI_WINDOW_KM
              have : r.maxKm ≤ sp.distanceAlongPath + POI_WINDOW_KM := by
                rw [hq3]
                linarith
              linarith
            · intro hne
              exact honame hne
        · rw [sectionRangesAux_new _ _ _ _ hname hsame]
          apply ih _ sp.distanceAlongPath hsub' hsorted' hrest_ge
          have holder_bound : ∀ o ∈ r :: tail,
              o.maxKm ≤ sp.distanceAlongPath + POI_WINDOW_KM ∧
              (o.sectionName ≠ sp.sectionName →
                o.maxKm < sp.distanceAlongPath - POI_WINDOW_KM) := by
            intro o ho
            obtain ⟨q, hq, hq1, hq2, hq3, hq4⟩ := hprov o ho
            constructor
            · rw [hq3]
              linarith
            · intro hne
              have hqsp : q.sectionName ≠ sp.sectionName := by
                rw [hq2]
                exact hne
              have := hsep q hq sp (hsub sp (List.mem_cons_self _ _)) hq1 hname hqsp
              have habs : |q.distanceAlongPath - sp.distanceAlongPath| =
                  sp.distanceAlongPath - q.distanceAlongPath := by
                rw [abs_of_nonpos (by linarith)]
                ring
              rw [habs] at this
              rw [hq3]
              linarith
          constructor
          · intro r' hr'
            rcases List.mem_cons.1 hr' with heq | htail
            · subst heq
              exact ⟨sp, hsub sp (List.mem_cons_self _ _), hname, rfl, rfl, le_rfl⟩
            · obtain ⟨q, hq, hq1, hq2, hq3, hq4⟩ := hprov r' htail
              exact ⟨q, hq, hq1, hq2, hq3, by linarith⟩
          · rw [List.pairwise_cons]
            refine ⟨?_, hpw⟩
            intro o ho
            obtain ⟨h1, h2⟩ := holder_bound o ho
            exact ⟨h1, fun hne => h2 hne⟩

lemma sectionHeaderState_visible_iff (ranges : List SectionRange) (km : ℚ) :
    (sectionHeaderState ranges km).1 = true ↔
      ∃ r ∈ ranges, r.minKm ≤ km ∧ km ≤ r.maxKm := by
  unfold sectionHeaderState
  cases hf : ranges.find? (fun r => decide (r.minKm ≤ km) && decide (km ≤ r.maxKm)) with
  | some r =>
    constructor
    · intro _
      refine ⟨r, List.mem_of_find?_eq_some hf, ?_⟩
      have hp := List.find?_some hf
      simp only [Bool.and_eq_true, decide_eq_true_eq] at hp
      exact hp
    · intro _
      rfl
  | none =>
    constructor
    · intro h
      exact absurd h (by simp)
    · rintro ⟨r, hr, h1, h2⟩
      have := List.find?_eq_none.1 hf r hr
      simp only [Bool.and_eq_true, decide_eq_true_eq, not_and] at this
      exact absurd h2 (this h1)

/-- C5 (counterexample): with inner waypoints of sections "A" at 0 km and
"B" at 5 km, the two merged ranges are `["A": −10…10, "B": −5…15]` —
two ranges of distinct section names that overlap (both contain
`km = 0`), refuting "ranges of distinct section names never overlap". -/
theorem section_ranges_overlap :
    sectionRanges
        [⟨0, "", "s", -30⟩, ⟨1, "A", "a", 0⟩, ⟨2, "B", "b", 5⟩, ⟨3, "", "e", 30⟩] =
      [⟨"A", -10, 10⟩, ⟨"B", -5, 15⟩] ∧
    ("A" : String) ≠ "B" ∧
    ((-10 : ℚ) ≤ 0 ∧ (0 : ℚ) ≤ 10) ∧ ((-5 : ℚ) ≤ 0 ∧ (0 : ℚ) ≤ 15) := by
  refine ⟨?_, by decide, by norm_num, by norm_num⟩
  norm_num [sectionRanges, innerPoints, sectionRangesAux, POI_WINDOW_KM,
    show ("A" : String) ≠ "" from by decide, show ("B" : String) ≠ "" from by decide,
    show ("A" : String) ≠ "B" from by decide]

/-- C5 (amended): section ranges merge consecutive eligible (inner,
nonempty-name) waypoints of the same section into
`[first − POI_WINDOW_KM, last + POI_WINDOW_KM]`; the section header is
visible exactly when the current distance lies in one of the ranges; and
ranges of distinct section names never overlap provided any two eligible
waypoints of different sections lie more than `2·POI_WINDOW_KM` apart —
without that separation, neighbouring ranges of different sections can
overlap. -/
theorem section_rule (pts : List SnappedPoint)
    (hsorted : List.Sorted (fun a b : SnappedPoint =>
      a.distanceAlongPath ≤ b.distanceAlongPath) pts)
    (hsep : ∀ p ∈ innerPoints pts, ∀ q ∈ innerPoints pts,
      p.sectionName ≠ "" → q.sectionName ≠ "" → p.sectionName ≠ q.sectionName →
      2 * POI_WINDOW_KM < |p.distanceAlongPath - q.distanceAlongPath|) :
    (∀ km, (sectionHeaderState (sectionRanges pts) km).1 = true ↔
      ∃ r ∈ sectionRanges pts, r.minKm ≤ km ∧ km ≤ r.maxKm) ∧
    (∀ r ∈ sectionRanges pts, ∀ s ∈ sectionRanges pts,
      r.sectionName ≠ s.sectionName →
      ∀ km, ¬ (r.minKm ≤ km ∧ km ≤ r.maxKm ∧ s.minKm ≤ km ∧ km ≤ s.maxKm)) := by
  refine ⟨fun km => sectionHeaderState_visible_iff _ km, ?_⟩
  have hinner_sorted : List.Sorted (fun a b : SnappedPoint =>
      a.distanceAlongPath ≤ b.distanceAlongPath) (innerPoints pts) := by
    unfold innerPoints
    by_cases h2 : 2 < pts.length
    · rw [if_pos h2]
      exact List.Pairwise.sublist
        ((List.dropLast_sublist _).trans (List.drop_sublist 1 pts)) hsorted
    · rw [if_neg h2]
      exact hsorted
  have hpw : List.Pairwise (fun a b => rangesRel b a) (sectionRanges pts) := by
    unfold sectionRanges
    cases hip : innerPoints pts with
    | nil =>
      rw [sectionRangesAux_nil]
      exact List.Pairwise.nil
    | cons q0 qrest =>
      rw [hip] at hinner_sorted hsep
      apply sectionRangesAux_pairwise (q0 :: qrest) hsep (q0 :: qrest) []
        q0.distanceAlongPath (fun x hx => hx) hinner_sorted
      · intro x hx
        rcases List.mem_cons.1 hx with rfl | hx'
        · exact le_rfl
        · exact (List.sorted_cons.1 hinner_sorted).1 x hx'
      · exact ⟨fun r hr => absurd hr (List.not_mem_nil r), List.Pairwise.nil⟩
  have hpw' : List.Pairwise (fun r s : SectionRange => r.sectionName ≠ s.sectionName →
      ∀ km, ¬ (r.minKm ≤ km ∧ km ≤ r.maxKm ∧ s.minKm ≤ km ∧ km ≤ s.maxKm))
      (sectionRanges pts) := by
    apply hpw.imp
    intro r s hrel hne km hkm
    have := hrel.2 hne
    obtain ⟨h1, h2, h3, h4⟩ := hkm
    linarith
  have hsymm : Symmetric (fun r s : SectionRange => r.sectionName ≠ s.sectionName →
      ∀ km, ¬ (r.minKm ≤ km ∧ km ≤ r.maxKm ∧ s.minKm ≤ km ∧ km ≤ s.maxKm)) := by
    intro r s h hne km hkm
    obtain ⟨h1, h2, h3, h4⟩ := hkm
    exact h hne.symm km ⟨h3, h4, h1, h2⟩
  intro r hr s hs hne km
  rcases eq_or_ne r s with rfl | hrs
  · exact absurd rfl hne
  · exact hpw'.forall hsymm hr hs hrs hne km

/-- Closed witness for `section_rule`: sections "A" at 0 km and "B" at
50 km are separated by more than `2·POI_WINDOW_KM`, and the visibility of
the header at `km = 0` is equivalent to membership in some range. -/
theorem section_rule_witness :
    (sectionHeaderState (sectionRanges
        [⟨0, "", "s", -100⟩, ⟨1, "A", "a", 0⟩, ⟨2, "B", "b", 50⟩, ⟨3, "", "e", 100⟩]) 0).1 =
      true ↔
    ∃ r ∈ sectionRanges
        [⟨0, "", "s", -100⟩, ⟨1, "A", "a", 0⟩, ⟨2, "B", "b", 50⟩, ⟨3, "", "e", 100⟩],
      r.minKm ≤ 0 ∧ (0 : ℚ) ≤ r.maxKm := by
  have h := section_rule
    [⟨0, "", "s", -100⟩, ⟨1, "A", "a", 0⟩, ⟨2, "B", "b", 50⟩, ⟨3, "", "e", 100⟩]
    (by norm_num [List.sorted_cons])
    (by
      intro pp hpp qq hqq h1 h2 h3
      simp only [innerPoints, List.length_cons, List.length_nil] at hpp hqq
      norm_num [List.dropLast] at hpp hqq
      rcases hpp with rfl | rfl <;> rcases hqq with rfl | rfl <;>
        first
        | exact absurd rfl h3
        | norm_num [POI_WINDOW_KM])
  exact h.1 0

end Portfolio
